import Mathlib

/-
Verification development for the size_constrained_clustering repository
(deterministic annealing solver, files base.py and da.py).

Modelling conventions.
* Python floats are modelled by exact rationals; the floating-point
  exponential np.exp is abstracted as an arbitrary function rexp supplied
  in the solver context, because no statement proved here depends on
  analytic properties of exp.  Division by zero in the rationals yields 0
  where the code would produce NaN/inf; the spec documents that hazard as
  unguarded, and no theorem below depends on the value at those points.
* A matrix is a list of rows of rationals.  Hard labels are natural
  numbers (np.argmax results).
* The pluggable distance function (distance_func in base.py) and the
  seeded sampler random.sample used by initial_centers are injected
  capabilities in the context; the global RNG seeded by random_state is
  modelled by the random_state value threaded explicitly into fit.
* Assertion failures and raised exceptions are modelled with Except.
-/

set_option maxHeartbeats 4000000
set_option maxRecDepth 2000

namespace SCC

/-- One feature vector or one matrix row: a list of rationals. -/
abbrev Vec : Type := List ℚ

/-- A matrix: list of rows. -/
abbrev Mat : Type := List (List ℚ)

/-- Accumulator for np.argmax over one row: current best value, next index,
current best index; strict comparison keeps the first maximum. -/
def argmaxAux : List ℚ → ℚ → ℕ → ℕ → ℕ
  | [], _, _, best => best
  | x :: xs, bv, i, best =>
    if bv < x then argmaxAux xs x (i + 1) i else argmaxAux xs bv (i + 1) best

/-- np.argmax over one row: index of the first maximal entry. -/
def argmaxRow : List ℚ → ℕ
  | [] => 0
  | x :: xs => argmaxAux xs x 1 0

/-- Accumulator for np.argmin over a list of naturals. -/
def argminAux : List ℕ → ℕ → ℕ → ℕ → ℕ
  | [], _, _, best => best
  | x :: xs, bv, i, best =>
    if x < bv then argminAux xs x (i + 1) i else argminAux xs bv (i + 1) best

/-- np.argmin over a list of naturals: index of the first minimal entry. -/
def argminList : List ℕ → ℕ
  | [] => 0
  | x :: xs => argminAux xs x 1 0

/-- len(collections.Counter(labels)): number of distinct labels. -/
def distinctCount (labels : List ℕ) : ℕ := labels.dedup.length

/-- abs(resultant_clusters - n_clusters) over the integers. -/
def natAbsDiff (a b : ℕ) : ℕ := ((a : ℤ) - (b : ℤ)).natAbs

/-- Pointwise addition of two rows (numpy broadcasting on equal shapes). -/
def addVec (a b : Vec) : Vec := List.zipWith (· + ·) a b

/-- The solver context: the injected exponential stand-in, the injected
distance function, the seeded sampler behind random.sample, and the
constructor-validated attributes lamb, n_clusters and max_iters. -/
structure Ctx where
  rexp : ℚ → ℚ
  dist : Mat → Mat → Mat
  sampler : ℕ → ℕ → ℕ → List ℕ × ℕ
  lamb : List ℚ
  n_clusters : ℕ
  max_iters : ℕ

/-- DeterministicAnnealing.update_eta: one fixed-point step for the capacity
multipliers.  w is the normalized demand column, D the point-to-center
distance matrix. -/
def update_eta (rexp : ℚ → ℚ) (beta : ℚ) (lamb eta w : List ℚ) (D : Mat) :
    List ℚ :=
  let divider : Mat := D.map fun drow =>
    let ex := drow.map fun d => rexp (-(beta * d))
    let s := (List.zipWith (fun e g => e * g) ex eta).sum
    ex.map fun e => e / s
  (List.range lamb.length).map fun j =>
    lamb.getD j 0 /
      (List.zipWith (fun row wi => row.getD j 0 * wi) divider w).sum

/-- DeterministicAnnealing.update_gibbs: Boltzmann-like soft assignment
reweighted by eta, each row divided by its own sum. -/
def update_gibbs (rexp : ℚ → ℚ) (beta : ℚ) (eta : List ℚ) (D : Mat) : Mat :=
  D.map fun drow =>
    let factor := List.zipWith (fun d e => rexp (-(beta * d)) * e) drow eta
    factor.map fun x => x / factor.sum

/-- DeterministicAnnealing.update_centers: demand-weighted centroids of the
soft assignment.  The number of produced centers is the width of the Gibbs
matrix, as with gibbs.T in the source. -/
def update_centers (w : List ℚ) (gibbs : Mat) (X : Mat) : Mat :=
  let d := (X.headD []).length
  (List.range (gibbs.headD []).length).map fun j =>
    let coef := List.zipWith (fun grow wi => grow.getD j 0 * wi) gibbs w
    let num := (List.zipWith (fun c xrow => xrow.map fun x => c * x) coef X).foldl
      addVec (List.replicate d 0)
    num.map fun x => x / coef.sum

/-- One fixed-points dictionary entry applied to the rows of the Gibbs
matrix starting at row index i: anchored rows are zeroed and then their
anchored-cluster column is set to 1, exactly as the two fancy-index
assignments in set_gibbs_fixed_points. -/
def overwriteRows (c : ℕ) (pts : List ℕ) : ℕ → Mat → Mat
  | _, [] => []
  | i, row :: rest =>
    (if i ∈ pts then (row.map fun _ => (0 : ℚ)).set c 1 else row) ::
      overwriteRows c pts (i + 1) rest

/-- DeterministicAnnealing.set_gibbs_fixed_points: every anchored point's
row becomes one-hot at its anchored cluster, entries applied in
dictionary insertion order. -/
def set_gibbs_fixed_points (gibbs : Mat) (fp : List (ℕ × List ℕ)) : Mat :=
  fp.foldl (fun g p => overwriteRows p.1 p.2 0 g) gibbs

/-- X[points_idxs].mean(axis=0): columnwise mean of the selected rows. -/
def meanRows (X : Mat) (pts : List ℕ) : Vec :=
  let rows := pts.map fun i => X.getD i []
  let s := rows.foldl addVec (List.replicate (rows.headD []).length 0)
  s.map fun x => x / (pts.length : ℚ)

/-- DeterministicAnnealing.set_centers_for_anchors: each anchored cluster's
center is replaced by the mean of its anchored points. -/
def set_centers_for_anchors (centers : Mat) (X : Mat)
    (fp : List (ℕ × List ℕ)) : Mat :=
  fp.foldl (fun cs p => cs.set p.1 (meanRows X p.2)) centers

/-- DeterministicAnnealing.initial_centers: k sampled point indices become
the initial centers; the sampler also returns its advanced RNG state. -/
def initial_centers (ctx : Ctx) (rng : ℕ) (X : Mat) : Mat × ℕ :=
  let r := ctx.sampler rng X.length ctx.n_clusters
  (r.1.map fun i => X.getD i [], r.2)

/-- DeterministicAnnealing._is_satisfied: every cluster id below
len(capacity) occurs among the labels and its count does not exceed its
capacity. -/
def _is_satisfied (capacity : List ℚ) (labels : List ℕ) : Bool :=
  (List.range capacity.length).all fun c =>
    decide (c ∈ labels) && decide ((labels.count c : ℚ) ≤ capacity.getD c 0)

/-- The mutable state of one inner iteration of fit: current temperature,
multipliers, centers and hard labels.  trace is a ghost field recording
the labels of every completed iteration, used only to state
per-iteration properties; prev_labels of the source is write-only and
omitted. -/
structure LoopState where
  t : ℚ
  eta : List ℚ
  centers : Mat
  labels : List ℕ
  trace : List (List ℕ)
deriving DecidableEq

/-- One iteration of the inner loop of fit (da.py lines 87-104):
beta from the current temperature, distances, eta step, Gibbs step,
anchor overrides, center update, temperature decay, argmax labels.
The no-op observability hook on_iter_end is omitted. -/
def innerStep (ctx : Ctx) (X : Mat) (w : List ℚ) (fp : List (ℕ × List ℕ))
    (s : LoopState) : LoopState :=
  let beta := 1 / s.t
  let D := ctx.dist X s.centers
  let eta := update_eta ctx.rexp beta ctx.lamb s.eta w D
  let gibbs0 := update_gibbs ctx.rexp beta eta D
  let gibbs := if fp = [] then gibbs0 else set_gibbs_fixed_points gibbs0 fp
  let centers0 := update_centers w gibbs X
  let centers :=
    if fp = [] then centers0 else set_centers_for_anchors centers0 X fp
  let labels := gibbs.map argmaxRow
  ⟨s.t * (999 / 1000), eta, centers, labels, s.trace ++ [labels]⟩

/-- The inner loop of fit: up to max_iters iterations, breaking as soon as
the capacity checker is satisfied by the fresh labels. -/
def innerLoop (ctx : Ctx) (X : Mat) (w : List ℚ) (fp : List (ℕ × List ℕ))
    (capacity : List ℚ) : ℕ → LoopState → LoopState
  | 0, s => s
  | fuel + 1, s =>
    let s2 := innerStep ctx X w fp s
    if _is_satisfied capacity s2.labels then s2
    else innerLoop ctx X w fp capacity fuel s2

/-- Result of one temperature level: final labels, centers and eta, the
ghost per-iteration label trace, and the RNG state after the level's
center sampling. -/
structure LevelOut where
  labels : List ℕ
  centers : Mat
  eta : List ℚ
  trace : List (List ℕ)
  rng : ℕ
deriving DecidableEq

/-- One temperature level of fit (da.py lines 76-104): reseed centers,
apply anchor means, reset eta to lamb, run the inner loop.  The initial
labels value None of the source is represented by [] and is always
overwritten because the constructor enforces max_iters >= 1. -/
def runLevel (ctx : Ctx) (X : Mat) (w : List ℚ) (fp : List (ℕ × List ℕ))
    (capacity : List ℚ) (rng : ℕ) (t : ℚ) : LevelOut :=
  let ic := initial_centers ctx rng X
  let centers0 := if fp = [] then ic.1 else set_centers_for_anchors ic.1 X fp
  let s := innerLoop ctx X w fp capacity ctx.max_iters
    ⟨t, ctx.lamb, centers0, [], []⟩
  ⟨s.labels, s.centers, s.eta, s.trace, ic.2⟩

/-- Ghost list of the results every temperature level of the schedule would
produce, with the RNG state threaded through the levels in order.  The
scheduler below executes a prefix of these levels. -/
def levelResults (ctx : Ctx) (X : Mat) (w : List ℚ) (fp : List (ℕ × List ℕ))
    (capacity : List ℚ) : List ℚ → ℕ → List LevelOut
  | [], _ => []
  | t :: rest, rng =>
    let lv := runLevel ctx X w fp capacity rng t
    lv :: levelResults ctx X w fp capacity rest lv.rng

/-- The local variables of the scheduler loop of fit: the recorded
solutions and realized-count deviations, and the current values of the
eta, labels and centers variables, plus the early-termination flag. -/
structure SchedState where
  solutions : List (List ℕ × Mat)
  diffs : List ℕ
  eta : List ℚ
  early : Bool
  labels : List ℕ
  centers : Mat
deriving DecidableEq

/-- The scheduler loop of fit (da.py lines 76-113): run each temperature
level, record its solution and its realized-count deviation, and break
early as soon as a level realizes exactly n_clusters distinct labels. -/
def runSchedule (ctx : Ctx) (X : Mat) (w : List ℚ) (fp : List (ℕ × List ℕ))
    (capacity : List ℚ) : List ℚ → ℕ → SchedState → SchedState
  | [], _, acc => acc
  | t :: rest, rng, acc =>
    let lv := runLevel ctx X w fp capacity rng t
    let res := distinctCount lv.labels
    let acc2 : SchedState :=
      ⟨acc.solutions ++ [(lv.labels, lv.centers)],
       acc.diffs ++ [natAbsDiff res ctx.n_clusters],
       lv.eta, acc.early, lv.labels, lv.centers⟩
    if res = ctx.n_clusters then
      ⟨acc2.solutions, acc2.diffs, acc2.eta, true, acc2.labels, acc2.centers⟩
    else runSchedule ctx X w fp capacity rest lv.rng acc2

/-- The demand-probability validation of fit: default uniform weights, and
the shape assertion for a supplied vector. -/
def rawDemands (n : ℕ) : Option (List ℚ) → Option (List ℚ)
  | none => some (List.replicate n (1 : ℚ))
  | some d => if d.length = n then some d else none

/-- demands_prob / sum(demands_prob). -/
def normalize (d : List ℚ) : List ℚ := d.map fun x => x / d.sum

/-- The fitted state persisted by fit and reused by predict. -/
structure Fitted where
  cluster_centers_ : Mat
  labels_ : List ℕ
  eta : List ℚ
  demands_prob : List ℚ
deriving DecidableEq

/-- The two failure modes of fit visible in this model: the demand-shape
assertion, and the TypeError from iterating a None temperature schedule. -/
inductive FitErr
  | inputShapeError
  | noneIterError
deriving DecidableEq

/-- DeterministicAnnealing.fit.  The capacity is recomputed from the
current number of points; the demand vector is validated and normalized
before the schedule is iterated (so a None schedule fails only after
that validation); the scheduler's result is post-processed by the
fallback argmin selection exactly as in the source, and the selected
labels and centers are persisted together with the eta variable and the
normalized demand vector. -/
def fit (ctx : Ctx) (T : Option (List ℚ)) (random_state : ℕ) (X : Mat)
    (demands : Option (List ℚ)) (fp : List (ℕ × List ℕ)) :
    Except FitErr Fitted :=
  let n := X.length
  let capacity := ctx.lamb.map fun l => (n : ℚ) * l
  match rawDemands n demands with
  | none => .error .inputShapeError
  | some d0 =>
    let w := normalize d0
    match T with
    | none => .error .noneIterError
    | some sched =>
      let r := runSchedule ctx X w fp capacity sched random_state
        ⟨[], [], ctx.lamb, false, [], []⟩
      let sel := if r.early then (r.labels, r.centers)
        else r.solutions.getD (argminList r.diffs) ([], [])
      .ok ⟨sel.2, sel.1, r.eta, w⟩

/-- The level results a given fit call would compute, with the capacity
derived from the point count as in fit. -/
def fitOuts (ctx : Ctx) (X : Mat) (w : List ℚ) (fp : List (ℕ × List ℕ))
    (sched : List ℚ) (seed : ℕ) : List LevelOut :=
  levelResults ctx X w fp (ctx.lamb.map fun l => ((X.length : ℕ) : ℚ) * l)
    sched seed

/-- DeterministicAnnealing.predict: distances to the stored centers, one
eta refinement from the stored eta and stored demand vector, one Gibbs
update with the refined eta, argmax labels.  beta is the solver's beta
attribute left over from fit; no temperature decay happens here. -/
def predict (rexp : ℚ → ℚ) (dist : Mat → Mat → Mat) (lamb : List ℚ)
    (beta : ℚ) (st : Fitted) (X : Mat) : List ℕ :=
  let D := dist X st.cluster_centers_
  let eta := update_eta rexp beta lamb st.eta st.demands_prob D
  (update_gibbs rexp beta eta D).map argmaxRow

/-- The claim's description of predict: one Gibbs update directly on the
stored eta, with no multiplier refinement. -/
def predictClaimed (rexp : ℚ → ℚ) (dist : Mat → Mat → Mat) (beta : ℚ)
    (st : Fitted) (X : Mat) : List ℕ :=
  let D := dist X st.cluster_centers_
  (update_gibbs rexp beta st.eta D).map argmaxRow

/-- The amended description of predict: distance matrix to the stored
centers, exactly one eta refinement step from the stored eta and stored
demand vector, one Gibbs update using the refined eta, argmax labels. -/
def predictDescribed (rexp : ℚ → ℚ) (dist : Mat → Mat → Mat) (lamb : List ℚ)
    (beta : ℚ) (st : Fitted) (X : Mat) : List ℕ :=
  let D := dist X st.cluster_centers_
  (update_gibbs rexp beta (update_eta rexp beta lamb st.eta st.demands_prob D)
    D).map argmaxRow

/-- Insert index i into an index list sorted by the values of r
(np.argsort helper). -/
def insertIdx (r : List ℚ) (i : ℕ) : List ℕ → List ℕ
  | [] => [i]
  | j :: rest =>
    if r.getD i 0 < r.getD j 0 then i :: j :: rest else j :: insertIdx r i rest

/-- np.argsort over one row: indices ordered by increasing value. -/
def argsortRow (r : List ℚ) : List ℕ :=
  (List.range r.length).foldl (fun acc i => insertIdx r i acc) []

/-- labels[remove_point_id] = adjacent_cluster. -/
def relabel (labs : List ℕ) (ids : List ℕ) (v : ℕ) : List ℕ :=
  ids.foldl (fun l i => l.set i v) labs

/-- One pass of the while loop of DeterministicAnnealing.modify: snapshot
the counts, walk the shuffled cluster ids, and for each overloaded
cluster move its cheapest excess points to a chosen adjacent cluster.
The shuffled order and the random.choice pick are injected entropy.
diff = count - capacity is a Python float; slicing argsort(..)[:diff]
with a float raises TypeError, modelled by the integrality test on diff
(the model is even slightly lenient: Python rejects every float there,
including integral ones such as 2.0). -/
def modifyPass (capacity : List ℚ) (adjacent : ℕ → List ℕ)
    (shuffleFn : List ℕ → List ℕ) (choiceFn : List ℕ → ℕ)
    (distM : Mat) (labels : List ℕ) : Except String (List ℕ) :=
  let count := fun cl => labels.count cl
  let ids := shuffleFn labels.dedup
  ids.foldlM (fun labs cl =>
    let diff : ℚ := ((count cl : ℕ) : ℚ) - capacity.getD cl 0
    if diff ≤ 0 then pure labs
    else
      let adj := choiceFn (adjacent cl)
      let clPts := (List.range labs.length).filter fun i => labs.getD i 0 = cl
      let dd := clPts.map fun i =>
        (distM.getD i []).getD adj 0 - (distM.getD i []).getD cl 0
      if diff.den = 1 then
        let removeIdx := ((argsortRow dd).take diff.num.toNat).map fun o =>
          clPts.getD o 0
        pure (relabel labs removeIdx adj)
      else .error "TypeError: slice indices must be integers") labels

/-- The while loop of modify, bounded by ghost fuel (the source loop has no
other bound and need not terminate). -/
def modifyLoop (capacity : List ℚ) (adjacent : ℕ → List ℕ)
    (shuffleFn : List ℕ → List ℕ) (choiceFn : List ℕ → ℕ)
    (distM : Mat) : ℕ → List ℕ → Except String (List ℕ)
  | 0, _ => .error "fuel exhausted"
  | fuel + 1, labels =>
    if _is_satisfied capacity labels then .ok labels
    else match modifyPass capacity adjacent shuffleFn choiceFn distM labels with
      | .error e => .error e
      | .ok labels2 =>
        modifyLoop capacity adjacent shuffleFn choiceFn distM fuel labels2

/-- DeterministicAnnealing.modify: adjacency from the two nearest other
centers by center-to-center distance, then the rebalancing while loop. -/
def modify (dist : Mat → Mat → Mat) (capacity : List ℚ)
    (shuffleFn : List ℕ → List ℕ) (choiceFn : List ℕ → ℕ)
    (labels : List ℕ) (centers : Mat) (distM : Mat) (fuel : ℕ) :
    Except String (List ℕ) :=
  let cd := dist centers centers
  modifyLoop capacity (fun i => ((argsortRow (cd.getD i [])).drop 1).take 2)
    shuffleFn choiceFn distM fuel labels

/-- A Python numeric argument as passed to the constructor: either an int
or a float (isinstance(x, int) distinguishes them). -/
inductive PyNum
  | int (z : ℤ)
  | float (q : ℚ)
deriving DecidableEq

/-- The distance_func argument as seen by Base.__init__: None, a callable,
or some non-callable value. -/
inductive PyVal
  | pynone
  | callable (f : Mat → Mat → Mat)
  | notCallable

/-- callable(x) for the modelled values. -/
def isCallable : PyVal → Bool
  | .callable _ => true
  | _ => false

/-- isinstance(x, int) for the modelled numeric values. -/
def isIntNum : PyNum → Bool
  | .int _ => true
  | .float _ => false

/-- Whether the distance_func argument is a non-None non-callable value,
the condition under which Base.__init__ raises. -/
def notCallableB : PyVal → Bool
  | .notCallable => true
  | _ => false

/-- The configuration produced by a successful construction. -/
structure DAConfig where
  n_clusters : ℕ
  max_iters : ℕ
  lamb : List ℚ
  T : Option (List ℚ)

/-- Round half to even, as np.round does on exact ties. -/
def roundHalfEven (x : ℚ) : ℤ :=
  let f := x.floor
  let r := x - (f : ℚ)
  if r < 1 / 2 then f
  else if 1 / 2 < r then f + 1
  else if f % 2 = 0 then f else f + 1

/-- np.sum(distribution).round(3). -/
def round3 (x : ℚ) : ℚ := ((roundHalfEven (x * 1000) : ℤ) : ℚ) / 1000

/-- The integer payload of a PyNum (0 for floats, never consulted there). -/
def intVal : PyNum → ℤ
  | .int z => z
  | .float _ => 0

/-- Base.__init__ followed by the DeterministicAnnealing.__init__
assertions, in source order: n_clusters is an int and >= 1, max_iters is
an int and >= 1, distance_func is None or callable (only a non-None
non-callable value raises), the distribution sum rounds to 1 at 3
decimals, and the distribution length equals n_clusters.  The T argument
is typed here, so the isinstance assertion on T always passes. -/
def da_init (nc : PyNum) (distribution : List ℚ) (mi : PyNum) (df : PyVal)
    (T : Option (List ℚ)) : Except String DAConfig :=
  if isIntNum nc = false then .error "assert isinstance(n_clusters, int)"
  else if intVal nc < 1 then .error "assert n_clusters >= 1"
  else if isIntNum mi = false then .error "assert isinstance(max_iters, int)"
  else if intVal mi < 1 then .error "assert max_iters >= 1"
  else if notCallableB df = true then
    .error "Distance function is not callable"
  else if round3 distribution.sum ≠ 1 then
    .error "assert sum(distribution) rounds to 1"
  else if (distribution.length : ℤ) ≠ intVal nc then
    .error "assert len(distribution) == n_clusters"
  else .ok ⟨(intVal nc).toNat, (intVal mi).toNat, distribution, T⟩

/-- Concrete squared-euclidean pairwise distance used in witnesses (the
distance function is an injected capability; any proper one serves). -/
def sqcdist : Mat → Mat → Mat := fun A B =>
  A.map fun a => B.map fun b =>
    (List.zipWith (fun x y => (x - y) * (x - y)) a b).sum

/-- Constant stand-in for the exponential, used in concrete witnesses. -/
def rexpOne : ℚ → ℚ := fun _ => 1

/-- A positive decreasing stand-in for the exponential on nonpositive
arguments, used in concrete witnesses. -/
def rexpInv : ℚ → ℚ := fun q => 1 / (1 - q)

/-- A deterministic sampler: the first k indices, RNG state unchanged. -/
def samplerR : ℕ → ℕ → ℕ → List ℕ × ℕ := fun rng _ k => (List.range k, rng)

/-- Witness context with the constant exponential stand-in. -/
def ctxC : Ctx := ⟨rexpOne, sqcdist, samplerR, [1 / 2, 1 / 2], 2, 1⟩

/-- Witness context with the decreasing exponential stand-in. -/
def ctxE : Ctx := ⟨rexpInv, sqcdist, samplerR, [1 / 2, 1 / 2], 2, 1⟩

/-- Default LevelOut used with List.getD. -/
def dummyLv : LevelOut := ⟨[], [], [], [], 0⟩

/-! ### Generic list lemmas -/

theorem headD_eq_getD {α : Type} (l : List α) (d : α) : l.headD d = l.getD 0 d := by
  cases l <;> rfl

theorem getD_map {α β : Type} (f : α → β) (l : List α) (d : α) (e : β) :
    ∀ i, i < l.length → (l.map f).getD i e = f (l.getD i d) := by
  induction l with
  | nil => intro i hi; exact absurd hi (Nat.not_lt_zero i)
  | cons a l ih =>
    intro i hi
    cases i with
    | zero => rfl
    | succ j =>
      simpa [List.getD_cons_succ] using ih j (Nat.lt_of_succ_lt_succ hi)

theorem getD_mem {α : Type} (l : List α) (d : α) :
    ∀ i, i < l.length → l.getD i d ∈ l := by
  induction l with
  | nil => intro i hi; exact absurd hi (Nat.not_lt_zero i)
  | cons a l ih =>
    intro i hi
    cases i with
    | zero => exact List.mem_cons_self a l
    | succ j =>
      exact List.mem_cons_of_mem a (ih j (Nat.lt_of_succ_lt_succ hi))

theorem sum_map_div (l : List ℚ) (s : ℚ) :
    (l.map fun x => x / s).sum = l.sum / s := by
  induction l with
  | nil => simp
  | cons a l ih => simp [ih, add_div]

theorem map_zero_replicate (l : List ℚ) :
    (l.map fun _ => (0 : ℚ)) = List.replicate l.length 0 := by
  induction l with
  | nil => rfl
  | cons a l ih => simpa [List.replicate_succ] using ih

theorem replicate_set_onehot :
    ∀ (L c : ℕ), c < L →
      (List.replicate L (0 : ℚ)).set c 1 =
        List.replicate c 0 ++ 1 :: List.replicate (L - c - 1) 0 := by
  intro L
  induction L with
  | zero => intro c hc; exact absurd hc (Nat.not_lt_zero c)
  | succ L ih =>
    intro c hc
    cases c with
    | zero => simp [List.replicate_succ]
    | succ c2 =>
      have h2 : c2 < L := Nat.lt_of_succ_lt_succ hc
      have harith : L + 1 - (c2 + 1) - 1 = L - c2 - 1 := by omega
      simp only [List.replicate_succ, List.set_cons_succ, ih c2 h2,
        List.cons_append, harith]

/-! ### argmax lemmas -/

theorem argmaxAux_no_gain :
    ∀ (xs : List ℚ) (bv : ℚ) (i best : ℕ), (∀ x ∈ xs, ¬ bv < x) →
      argmaxAux xs bv i best = best := by
  intro xs
  induction xs with
  | nil => intro bv i best _; rfl
  | cons x xs ih =>
    intro bv i best h
    have hx : ¬ bv < x := h x (List.mem_cons_self x xs)
    simp only [argmaxAux, if_neg hx]
    exact ih bv (i + 1) best fun z hz => h z (List.mem_cons_of_mem x hz)

theorem argmaxAux_onehot :
    ∀ (m : ℕ) (zs : List ℚ) (i best : ℕ), (∀ z ∈ zs, z ≤ 1) →
      argmaxAux (List.replicate m 0 ++ 1 :: zs) 0 i best = i + m := by
  intro m
  induction m with
  | zero =>
    intro zs i best h
    have h1 : (0 : ℚ) < 1 := one_pos
    simp only [List.replicate, List.nil_append, argmaxAux, if_pos h1]
    have := argmaxAux_no_gain zs 1 (i + 1) i fun z hz => not_lt.mpr (h z hz)
    simpa using this
  | succ m ih =>
    intro zs i best h
    have h0 : ¬ (0 : ℚ) < 0 := lt_irrefl 0
    rw [show List.replicate (m + 1) (0 : ℚ) ++ 1 :: zs
        = 0 :: (List.replicate m 0 ++ 1 :: zs) from rfl]
    simp only [argmaxAux, if_neg h0]
    rw [ih zs (i + 1) best h]
    omega

theorem argmaxRow_replicate_set (L c : ℕ) (hc : c < L) :
    argmaxRow ((List.replicate L (0 : ℚ)).set c 1) = c := by
  rw [replicate_set_onehot L c hc]
  cases c with
  | zero =>
    simp only [List.replicate, List.nil_append, argmaxRow]
    exact argmaxAux_no_gain _ 1 1 0 (by
      intro z hz
      have : z = 0 := List.eq_of_mem_replicate hz
      simp [this])
  | succ c2 =>
    simp only [List.replicate_succ, List.cons_append, argmaxRow]
    have := argmaxAux_onehot c2 (List.replicate (L - (c2 + 1) - 1) 0) 1 0 (by
      intro z hz
      have : z = 0 := List.eq_of_mem_replicate hz
      simp [this])
    rw [this]
    omega

theorem argmaxRow_forced (row : Vec) (c : ℕ) (hc : c < row.length) :
    argmaxRow ((row.map fun _ => (0 : ℚ)).set c 1) = c := by
  rw [map_zero_replicate]
  exact argmaxRow_replicate_set row.length c hc

/-! ### argmin lemmas -/

theorem argminAux_spec :
    ∀ (xs : List ℕ) (bv : ℕ) (i best : ℕ),
      (argminAux xs bv i best = best ∧ ∀ j, j < xs.length → bv ≤ xs.getD j 0)
      ∨ (∃ j, j < xs.length ∧ argminAux xs bv i best = i + j
          ∧ xs.getD j 0 < bv
          ∧ (∀ j2, j2 < xs.length → xs.getD j 0 ≤ xs.getD j2 0)
          ∧ (∀ j2, j2 < j → xs.getD j 0 < xs.getD j2 0)) := by
  intro xs
  induction xs with
  | nil =>
    intro bv i best
    left
    exact ⟨rfl, fun j hj => absurd hj (Nat.not_lt_zero j)⟩
  | cons x xs ih =>
    intro bv i best
    by_cases hx : x < bv
    · simp only [argminAux, if_pos hx]
      rcases ih x (i + 1) i with ⟨heq, hmin⟩ | ⟨j, hj, heq, hlt, hmin, hfirst⟩
      · right
        refine ⟨0, Nat.succ_pos _, by simpa using heq, by simpa using hx, ?_, ?_⟩
        · intro j2 hj2
          cases j2 with
          | zero => simp
          | succ m => simpa using hmin m (Nat.lt_of_succ_lt_succ hj2)
        · intro j2 hj2; exact absurd hj2 (Nat.not_lt_zero j2)
      · right
        refine ⟨j + 1, Nat.succ_lt_succ hj, by rw [heq]; omega, ?_, ?_, ?_⟩
        · simpa using lt_trans hlt hx
        · intro j2 hj2
          cases j2 with
          | zero => simpa using le_of_lt hlt
          | succ m => simpa using hmin m (Nat.lt_of_succ_lt_succ hj2)
        · intro j2 hj2
          cases j2 with
          | zero => simpa using hlt
          | succ m => simpa using hfirst m (Nat.lt_of_succ_lt_succ hj2)
    · simp only [argminAux, if_neg hx]
      have hbx : bv ≤ x := le_of_not_lt hx
      rcases ih bv (i + 1) best with ⟨heq, hmin⟩ | ⟨j, hj, heq, hlt, hmin, hfirst⟩
      · left
        refine ⟨heq, ?_⟩
        intro j hj
        cases j with
        | zero => simpa using hbx
        | succ m => simpa using hmin m (Nat.lt_of_succ_lt_succ hj)
      · right
        refine ⟨j + 1, Nat.succ_lt_succ hj, by rw [heq]; omega, by simpa using hlt, ?_, ?_⟩
        · intro j2 hj2
          cases j2 with
          | zero => simpa using le_trans (le_of_lt hlt) hbx
          | succ m => simpa using hmin m (Nat.lt_of_succ_lt_succ hj2)
        · intro j2 hj2
          cases j2 with
          | zero => simpa using lt_of_lt_of_le hlt hbx
          | succ m => simpa using hfirst m (Nat.lt_of_succ_lt_succ hj2)

theorem argminList_spec (l : List ℕ) (h : l ≠ []) :
    argminList l < l.length
    ∧ (∀ i, i < l.length → l.getD (argminList l) 0 ≤ l.getD i 0)
    ∧ (∀ i, i < argminList l → l.getD i 0 > l.getD (argminList l) 0) := by
  cases l with
  | nil => exact absurd rfl h
  | cons x xs =>
    simp only [argminList]
    rcases argminAux_spec xs x 1 0 with ⟨heq, hmin⟩ | ⟨j, hj, heq, hlt, hmin, hfirst⟩
    · rw [heq]
      refine ⟨Nat.succ_pos _, ?_, ?_⟩
      · intro i hi
        cases i with
        | zero => simp
        | succ m => simpa using hmin m (Nat.lt_of_succ_lt_succ hi)
      · intro i hi; exact absurd hi (Nat.not_lt_zero i)
    · rw [heq]
      have hg : (x :: xs).getD (1 + j) 0 = xs.getD j 0 := by
        have : 1 + j = j + 1 := Nat.add_comm 1 j
        simp [this]
      refine ⟨by simp only [List.length_cons]; omega, ?_, ?_⟩
      · intro i hi
        rw [hg]
        cases i with
        | zero => simpa using le_of_lt hlt
        | succ m => simpa using hmin m (Nat.lt_of_succ_lt_succ hi)
      · intro i hi
        rw [hg]
        cases i with
        | zero => simpa using hlt
        | succ m =>
          have : m < j := by omega
          simpa using hfirst m this

/-! ### Anchor-forcing lemmas -/

theorem overwriteRows_length (c : ℕ) (pts : List ℕ) :
    ∀ (i : ℕ) (g : Mat), (overwriteRows c pts i g).length = g.length := by
  intro i g
  induction g generalizing i with
  | nil => rfl
  | cons row rest ih => simp [overwriteRows, ih]

theorem overwriteRows_getD (c : ℕ) (pts : List ℕ) :
    ∀ (g : Mat) (i j : ℕ), j < g.length →
      (overwriteRows c pts i g).getD j [] =
        if (i + j) ∈ pts then ((g.getD j []).map fun _ => (0 : ℚ)).set c 1
        else g.getD j [] := by
  intro g
  induction g with
  | nil => intro i j hj; exact absurd hj (Nat.not_lt_zero j)
  | cons row rest ih =>
    intro i j hj
    cases j with
    | zero => simp [overwriteRows]
    | succ m =>
      have hm : m < rest.length := Nat.lt_of_succ_lt_succ hj
      have harith : i + 1 + m = i + (m + 1) := by omega
      simp only [overwriteRows, List.getD_cons_succ]
      rw [ih (i + 1) m hm, harith]

theorem sgfp_length :
    ∀ (fp : List (ℕ × List ℕ)) (g : Mat),
      (set_gibbs_fixed_points g fp).length = g.length := by
  intro fp
  induction fp with
  | nil => intro g; rfl
  | cons p rest ih =>
    intro g
    have : set_gibbs_fixed_points g (p :: rest)
        = set_gibbs_fixed_points (overwriteRows p.1 p.2 0 g) rest := rfl
    rw [this, ih, overwriteRows_length]

theorem forced_idem (l : Vec) (c : ℕ) :
    (((l.map fun _ => (0 : ℚ)).set c 1).map fun _ => (0 : ℚ)).set c 1 =
      (l.map fun _ => (0 : ℚ)).set c 1 := by
  rw [map_zero_replicate ((l.map fun _ => (0 : ℚ)).set c 1)]
  rw [List.length_set, List.length_map]
  rw [show List.replicate l.length (0 : ℚ) = l.map fun _ => (0 : ℚ) from
    (map_zero_replicate l).symm]

theorem sgfp_not_mem (idx : ℕ) :
    ∀ (fp : List (ℕ × List ℕ)) (g : Mat), (∀ p ∈ fp, idx ∉ p.2) →
      idx < g.length →
      (set_gibbs_fixed_points g fp).getD idx [] = g.getD idx [] := by
  intro fp
  induction fp with
  | nil => intro g _ _; rfl
  | cons p rest ih =>
    intro g h hidx
    have hstep : set_gibbs_fixed_points g (p :: rest)
        = set_gibbs_fixed_points (overwriteRows p.1 p.2 0 g) rest := rfl
    have hnp : idx ∉ p.2 := h p (List.mem_cons_self p rest)
    have hlen : idx < (overwriteRows p.1 p.2 0 g).length := by
      rw [overwriteRows_length]; exact hidx
    rw [hstep, ih (overwriteRows p.1 p.2 0 g)
      (fun q hq => h q (List.mem_cons_of_mem p hq)) hlen]
    rw [overwriteRows_getD p.1 p.2 g 0 idx hidx]
    simp [hnp]

theorem sgfp_forced (c idx : ℕ) :
    ∀ (fp : List (ℕ × List ℕ)) (g : Mat),
      (∃ p, p ∈ fp ∧ idx ∈ p.2) →
      (∀ p ∈ fp, idx ∈ p.2 → p.1 = c) →
      idx < g.length →
      (set_gibbs_fixed_points g fp).getD idx [] =
        ((g.getD idx []).map fun _ => (0 : ℚ)).set c 1 := by
  intro fp
  induction fp with
  | nil =>
    intro g hex _ _
    rcases hex with ⟨p, hp, _⟩
    exact absurd hp (List.not_mem_nil p)
  | cons p rest ih =>
    intro g hex huniq hidx
    have hstep : set_gibbs_fixed_points g (p :: rest)
        = set_gibbs_fixed_points (overwriteRows p.1 p.2 0 g) rest := rfl
    have hlen2 : idx < (overwriteRows p.1 p.2 0 g).length := by
      rw [overwriteRows_length]; exact hidx
    have hrow := overwriteRows_getD p.1 p.2 g 0 idx hidx
    by_cases hmemp : idx ∈ p.2
    · have hp1 : p.1 = c := huniq p (List.mem_cons_self p rest) hmemp
      have hforced : (overwriteRows p.1 p.2 0 g).getD idx [] =
          ((g.getD idx []).map fun _ => (0 : ℚ)).set c 1 := by
        rw [hrow]
        simp only [Nat.zero_add, if_pos hmemp, hp1]
      by_cases hrest : ∃ q, q ∈ rest ∧ idx ∈ q.2
      · rw [hstep, ih (overwriteRows p.1 p.2 0 g) hrest
          (fun q hq hm => huniq q (List.mem_cons_of_mem p hq) hm) hlen2]
        rw [hforced]
        exact forced_idem (g.getD idx []) c
      · have hnone : ∀ q ∈ rest, idx ∉ q.2 := by
          intro q hq hm
          exact hrest ⟨q, hq, hm⟩
        rw [hstep, sgfp_not_mem idx rest (overwriteRows p.1 p.2 0 g) hnone hlen2]
        exact hforced
    · have hunch : (overwriteRows p.1 p.2 0 g).getD idx [] = g.getD idx [] := by
        rw [hrow]
        simp [hmemp]
      have hex2 : ∃ q, q ∈ rest ∧ idx ∈ q.2 := by
        rcases hex with ⟨q, hq, hm⟩
        rcases List.mem_cons.mp hq with hq1 | hq2
        · exact absurd (hq1 ▸ hm) hmemp
        · exact ⟨q, hq2, hm⟩
      rw [hstep, ih (overwriteRows p.1 p.2 0 g) hex2
        (fun q hq hm => huniq q (List.mem_cons_of_mem p hq) hm) hlen2, hunch]

theorem sgfp_rowlen (idx : ℕ) :
    ∀ (fp : List (ℕ × List ℕ)) (g : Mat), idx < g.length →
      ((set_gibbs_fixed_points g fp).getD idx []).length =
        (g.getD idx []).length := by
  intro fp
  induction fp with
  | nil => intro g _; rfl
  | cons p rest ih =>
    intro g hidx
    have hstep : set_gibbs_fixed_points g (p :: rest)
        = set_gibbs_fixed_points (overwriteRows p.1 p.2 0 g) rest := rfl
    have hlen2 : idx < (overwriteRows p.1 p.2 0 g).length := by
      rw [overwriteRows_length]; exact hidx
    rw [hstep, ih (overwriteRows p.1 p.2 0 g) hlen2]
    rw [overwriteRows_getD p.1 p.2 g 0 idx hidx]
    simp only [Nat.zero_add]
    by_cases hm : idx ∈ p.2
    · simp [hm]
    · simp [hm]

/-! ### Shape lemmas -/

theorem scfa_length (X : Mat) :
    ∀ (fp : List (ℕ × List ℕ)) (cs : Mat),
      (set_centers_for_anchors cs X fp).length = cs.length := by
  intro fp
  induction fp with
  | nil => intro cs; rfl
  | cons p rest ih =>
    intro cs
    have hstep : set_centers_for_anchors cs X (p :: rest)
        = set_centers_for_anchors (cs.set p.1 (meanRows X p.2)) X rest := rfl
    rw [hstep, ih, List.length_set]

theorem update_eta_length (rexp : ℚ → ℚ) (beta : ℚ) (lamb eta w : List ℚ)
    (D : Mat) : (update_eta rexp beta lamb eta w D).length = lamb.length := by
  simp [update_eta]

theorem update_gibbs_length (rexp : ℚ → ℚ) (beta : ℚ) (eta : List ℚ)
    (D : Mat) : (update_gibbs rexp beta eta D).length = D.length := by
  simp [update_gibbs]

theorem update_gibbs_getD (rexp : ℚ → ℚ) (beta : ℚ) (eta : List ℚ) (D : Mat)
    (j : ℕ) (hj : j < D.length) :
    (update_gibbs rexp beta eta D).getD j [] =
      (List.zipWith (fun d e => rexp (-(beta * d)) * e) (D.getD j []) eta).map
        fun x =>
          x / (List.zipWith (fun d e => rexp (-(beta * d)) * e) (D.getD j [])
            eta).sum := by
  simp only [update_gibbs]
  exact getD_map _ D [] [] j hj

theorem update_gibbs_row_length (rexp : ℚ → ℚ) (beta : ℚ) (eta : List ℚ)
    (D : Mat) (j : ℕ) (hj : j < D.length) :
    ((update_gibbs rexp beta eta D).getD j []).length =
      min (D.getD j []).length eta.length := by
  rw [update_gibbs_getD rexp beta eta D j hj]
  simp [List.length_zipWith]

theorem update_centers_length (w : List ℚ) (gibbs : Mat) (X : Mat) :
    (update_centers w gibbs X).length = (gibbs.headD []).length := by
  simp [update_centers]

/-! ### Scheduler characterization -/

theorem length_levelResults (ctx : Ctx) (X : Mat) (w : List ℚ)
    (fp : List (ℕ × List ℕ)) (capacity : List ℚ) :
    ∀ (sched : List ℚ) (rng : ℕ),
      (levelResults ctx X w fp capacity sched rng).length = sched.length := by
  intro sched
  induction sched with
  | nil => intro rng; rfl
  | cons t rest ih => intro rng; simp [levelResults, ih]

theorem runSchedule_nohit (ctx : Ctx) (X : Mat) (w : List ℚ)
    (fp : List (ℕ × List ℕ)) (capacity : List ℚ) :
    ∀ (sched : List ℚ) (rng : ℕ) (acc : SchedState),
      (∀ lv ∈ levelResults ctx X w fp capacity sched rng,
        distinctCount lv.labels ≠ ctx.n_clusters) →
      runSchedule ctx X w fp capacity sched rng acc =
        ⟨acc.solutions ++ (levelResults ctx X w fp capacity sched rng).map
            (fun lv => (lv.labels, lv.centers)),
         acc.diffs ++ (levelResults ctx X w fp capacity sched rng).map
            (fun lv => natAbsDiff (distinctCount lv.labels) ctx.n_clusters),
         ((levelResults ctx X w fp capacity sched rng).map LevelOut.eta).getLastD
            acc.eta,
         acc.early,
         ((levelResults ctx X w fp capacity sched rng).map
            LevelOut.labels).getLastD acc.labels,
         ((levelResults ctx X w fp capacity sched rng).map
            LevelOut.centers).getLastD acc.centers⟩ := by
  intro sched
  induction sched with
  | nil =>
    intro rng acc _
    have h1 : runSchedule ctx X w fp capacity [] rng acc = acc := rfl
    have h2 : levelResults ctx X w fp capacity [] rng = [] := rfl
    rw [h1, h2]
    cases acc
    simp
  | cons t rest ih =>
    intro rng acc h
    have hhead : distinctCount (runLevel ctx X w fp capacity rng t).labels
        ≠ ctx.n_clusters := by
      apply h
      simp [levelResults]
    have htail : ∀ lv ∈ levelResults ctx X w fp capacity rest
        (runLevel ctx X w fp capacity rng t).rng,
        distinctCount lv.labels ≠ ctx.n_clusters := by
      intro lv hlv
      apply h
      simp only [levelResults, List.mem_cons]
      exact Or.inr hlv
    simp only [runSchedule, if_neg hhead]
    rw [ih _ _ htail]
    simp only [levelResults, List.map_cons, List.getLastD_cons]
    simp [List.append_assoc]

theorem runSchedule_early (ctx : Ctx) (X : Mat) (w : List ℚ)
    (fp : List (ℕ × List ℕ)) (capacity : List ℚ) :
    ∀ (sched : List ℚ) (rng : ℕ) (acc : SchedState) (j : ℕ),
      j < (levelResults ctx X w fp capacity sched rng).length →
      (∀ i, i < j → distinctCount ((levelResults ctx X w fp capacity sched
        rng).getD i dummyLv).labels ≠ ctx.n_clusters) →
      distinctCount ((levelResults ctx X w fp capacity sched rng).getD j
        dummyLv).labels = ctx.n_clusters →
      runSchedule ctx X w fp capacity sched rng acc =
        ⟨acc.solutions ++ ((levelResults ctx X w fp capacity sched rng).take
            (j + 1)).map (fun lv => (lv.labels, lv.centers)),
         acc.diffs ++ ((levelResults ctx X w fp capacity sched rng).take
            (j + 1)).map
            (fun lv => natAbsDiff (distinctCount lv.labels) ctx.n_clusters),
         ((levelResults ctx X w fp capacity sched rng).getD j dummyLv).eta,
         true,
         ((levelResults ctx X w fp capacity sched rng).getD j dummyLv).labels,
         ((levelResults ctx X w fp capacity sched rng).getD j dummyLv).centers⟩
      := by
  intro sched
  induction sched with
  | nil =>
    intro rng acc j hj _ _
    simp only [levelResults, List.length_nil] at hj
    exact absurd hj (Nat.not_lt_zero j)
  | cons t rest ih =>
    intro rng acc j hj hfirst hhit
    cases j with
    | zero =>
      have hhit0 : distinctCount (runLevel ctx X w fp capacity rng t).labels
          = ctx.n_clusters := by
        simpa [levelResults] using hhit
      simp only [runSchedule, if_pos hhit0]
      simp [levelResults, hhit0]
    | succ j2 =>
      have hhead : distinctCount (runLevel ctx X w fp capacity rng t).labels
          ≠ ctx.n_clusters := by
        have := hfirst 0 (Nat.succ_pos j2)
        simpa [levelResults] using this
      have hj2 : j2 < (levelResults ctx X w fp capacity rest
          (runLevel ctx X w fp capacity rng t).rng).length := by
        simp only [levelResults, List.length_cons] at hj
        omega
      have hfirst2 : ∀ i, i < j2 → distinctCount ((levelResults ctx X w fp
          capacity rest (runLevel ctx X w fp capacity rng t).rng).getD i
          dummyLv).labels ≠ ctx.n_clusters := by
        intro i hi
        have := hfirst (i + 1) (Nat.succ_lt_succ hi)
        simpa [levelResults] using this
      have hhit2 : distinctCount ((levelResults ctx X w fp capacity rest
          (runLevel ctx X w fp capacity rng t).rng).getD j2 dummyLv).labels
          = ctx.n_clusters := by
        simpa [levelResults] using hhit
      simp only [runSchedule, if_neg hhead]
      rw [ih _ _ j2 hj2 hfirst2 hhit2]
      simp only [levelResults, List.take_succ_cons, List.map_cons,
        List.getD_cons_succ]
      simp [List.append_assoc]

/-! ### Projection equations for the inner step -/

theorem innerStep_labels (ctx : Ctx) (X : Mat) (w : List ℚ)
    (fp : List (ℕ × List ℕ)) (s : LoopState) (hfp : fp ≠ []) :
    (innerStep ctx X w fp s).labels =
      (set_gibbs_fixed_points
        (update_gibbs ctx.rexp (1 / s.t)
          (update_eta ctx.rexp (1 / s.t) ctx.lamb s.eta w (ctx.dist X s.centers))
          (ctx.dist X s.centers)) fp).map argmaxRow := by
  simp only [innerStep, if_neg hfp]

theorem innerStep_centers (ctx : Ctx) (X : Mat) (w : List ℚ)
    (fp : List (ℕ × List ℕ)) (s : LoopState) (hfp : fp ≠ []) :
    (innerStep ctx X w fp s).centers =
      set_centers_for_anchors
        (update_centers w
          (set_gibbs_fixed_points
            (update_gibbs ctx.rexp (1 / s.t)
              (update_eta ctx.rexp (1 / s.t) ctx.lamb s.eta w
                (ctx.dist X s.centers))
              (ctx.dist X s.centers)) fp) X) X fp := by
  simp only [innerStep, if_neg hfp]

theorem innerStep_trace (ctx : Ctx) (X : Mat) (w : List ℚ)
    (fp : List (ℕ × List ℕ)) (s : LoopState) :
    (innerStep ctx X w fp s).trace =
      s.trace ++ [(innerStep ctx X w fp s).labels] := by
  simp only [innerStep]

/-! ### The anchored-label invariant -/

theorem innerStep_anchor (ctx : Ctx) (X : Mat) (w : List ℚ)
    (fp : List (ℕ × List ℕ)) (c idx : ℕ) (s : LoopState)
    (hdist : ∀ A B, (ctx.dist A B).length = A.length ∧
      ∀ r ∈ ctx.dist A B, r.length = B.length)
    (hlen : ctx.lamb.length = ctx.n_clusters)
    (hex : ∃ p, p ∈ fp ∧ idx ∈ p.2)
    (huniq : ∀ p ∈ fp, idx ∈ p.2 → p.1 = c)
    (hc : c < ctx.n_clusters) (hidx : idx < X.length)
    (hcen : s.centers.length = ctx.n_clusters) :
    (innerStep ctx X w fp s).labels.getD idx 0 = c ∧
    (innerStep ctx X w fp s).centers.length = ctx.n_clusters := by
  have hfp : fp ≠ [] := by
    rcases hex with ⟨p, hp, _⟩
    intro hnil
    rw [hnil] at hp
    exact List.not_mem_nil p hp
  have hDlen : (ctx.dist X s.centers).length = X.length :=
    (hdist X s.centers).1
  have hDrow : ∀ j, j < X.length →
      ((ctx.dist X s.centers).getD j []).length = ctx.n_clusters := by
    intro j hj
    have hjD : j < (ctx.dist X s.centers).length := by rw [hDlen]; exact hj
    rw [(hdist X s.centers).2 ((ctx.dist X s.centers).getD j [])
      (getD_mem (ctx.dist X s.centers) [] j hjD), hcen]
  have heta : (update_eta ctx.rexp (1 / s.t) ctx.lamb s.eta w
      (ctx.dist X s.centers)).length = ctx.n_clusters := by
    rw [update_eta_length, hlen]
  have hg0len : (update_gibbs ctx.rexp (1 / s.t)
      (update_eta ctx.rexp (1 / s.t) ctx.lamb s.eta w (ctx.dist X s.centers))
      (ctx.dist X s.centers)).length = X.length := by
    rw [update_gibbs_length, hDlen]
  have hg0row : ∀ j, j < X.length →
      ((update_gibbs ctx.rexp (1 / s.t)
        (update_eta ctx.rexp (1 / s.t) ctx.lamb s.eta w (ctx.dist X s.centers))
        (ctx.dist X s.centers)).getD j []).length = ctx.n_clusters := by
    intro j hj
    have hjD : j < (ctx.dist X s.centers).length := by rw [hDlen]; exact hj
    rw [update_gibbs_row_length _ _ _ _ j hjD, hDrow j hj, heta, min_self]
  have hidx0 : idx < (update_gibbs ctx.rexp (1 / s.t)
      (update_eta ctx.rexp (1 / s.t) ctx.lamb s.eta w (ctx.dist X s.centers))
      (ctx.dist X s.centers)).length := by rw [hg0len]; exact hidx
  constructor
  · rw [innerStep_labels ctx X w fp s hfp]
    have hglen : idx < (set_gibbs_fixed_points
        (update_gibbs ctx.rexp (1 / s.t)
          (update_eta ctx.rexp (1 / s.t) ctx.lamb s.eta w
            (ctx.dist X s.centers))
          (ctx.dist X s.centers)) fp).length := by
      rw [sgfp_length]; exact hidx0
    rw [getD_map argmaxRow _ [] 0 idx hglen]
    rw [sgfp_forced c idx fp _ hex huniq hidx0]
    exact argmaxRow_forced _ c (by rw [hg0row idx hidx]; exact hc)
  · rw [innerStep_centers ctx X w fp s hfp, scfa_length, update_centers_length]
    rw [headD_eq_getD]
    have h0X : 0 < X.length := Nat.lt_of_le_of_lt (Nat.zero_le idx) hidx
    have h0g : 0 < (update_gibbs ctx.rexp (1 / s.t)
        (update_eta ctx.rexp (1 / s.t) ctx.lamb s.eta w (ctx.dist X s.centers))
        (ctx.dist X s.centers)).length := by rw [hg0len]; exact h0X
    rw [sgfp_rowlen 0 fp _ h0g]
    exact hg0row 0 h0X

theorem innerLoop_anchor (ctx : Ctx) (X : Mat) (w : List ℚ)
    (fp : List (ℕ × List ℕ)) (capacity : List ℚ) (c idx : ℕ)
    (hdist : ∀ A B, (ctx.dist A B).length = A.length ∧
      ∀ r ∈ ctx.dist A B, r.length = B.length)
    (hlen : ctx.lamb.length = ctx.n_clusters)
    (hex : ∃ p, p ∈ fp ∧ idx ∈ p.2)
    (huniq : ∀ p ∈ fp, idx ∈ p.2 → p.1 = c)
    (hc : c < ctx.n_clusters) (hidx : idx < X.length) :
    ∀ (fuel : ℕ) (s : LoopState), s.centers.length = ctx.n_clusters →
      (innerLoop ctx X w fp capacity fuel s).centers.length = ctx.n_clusters
      ∧ (∀ labs ∈ (innerLoop ctx X w fp capacity fuel s).trace,
          labs ∈ s.trace ∨ labs.getD idx 0 = c)
      ∧ (1 ≤ fuel →
          (innerLoop ctx X w fp capacity fuel s).labels.getD idx 0 = c) := by
  intro fuel
  induction fuel with
  | zero =>
    intro s hcen
    exact ⟨hcen, fun labs h => Or.inl h, fun h => absurd h (by omega)⟩
  | succ n ih =>
    intro s hcen
    obtain ⟨hlab, hclen⟩ := innerStep_anchor ctx X w fp c idx s hdist hlen hex
      huniq hc hidx hcen
    have htr := innerStep_trace ctx X w fp s
    by_cases hsat : _is_satisfied capacity (innerStep ctx X w fp s).labels = true
    · have hval : innerLoop ctx X w fp capacity (n + 1) s =
          innerStep ctx X w fp s := by
        simp only [innerLoop, hsat, if_pos]
      rw [hval]
      refine ⟨hclen, ?_, fun _ => hlab⟩
      intro labs hmem
      rw [htr] at hmem
      rcases List.mem_append.mp hmem with h1 | h2
      · exact Or.inl h1
      · right
        have : labs = (innerStep ctx X w fp s).labels := List.mem_singleton.mp h2
        rw [this]
        exact hlab
    · have hval : innerLoop ctx X w fp capacity (n + 1) s =
          innerLoop ctx X w fp capacity n (innerStep ctx X w fp s) := by
        simp only [innerLoop, hsat, if_neg, Bool.false_eq_true,
          not_false_eq_true]
      rw [hval]
      obtain ⟨ih1, ih2, ih3⟩ := ih (innerStep ctx X w fp s) hclen
      refine ⟨ih1, ?_, ?_⟩
      · intro labs hmem
        rcases ih2 labs hmem with h1 | h2
        · rw [htr] at h1
          rcases List.mem_append.mp h1 with h3 | h4
          · exact Or.inl h3
          · right
            have : labs = (innerStep ctx X w fp s).labels :=
              List.mem_singleton.mp h4
            rw [this]
            exact hlab
        · exact Or.inr h2
      · intro _
        cases n with
        | zero => exact hlab
        | succ m => exact ih3 (by omega)

theorem runLevel_anchor (ctx : Ctx) (X : Mat) (w : List ℚ)
    (fp : List (ℕ × List ℕ)) (capacity : List ℚ) (c idx : ℕ)
    (hdist : ∀ A B, (ctx.dist A B).length = A.length ∧
      ∀ r ∈ ctx.dist A B, r.length = B.length)
    (hsamp : ∀ rng n k, ((ctx.sampler rng n k).1).length = k)
    (hlen : ctx.lamb.length = ctx.n_clusters)
    (hmi : 1 ≤ ctx.max_iters)
    (hex : ∃ p, p ∈ fp ∧ idx ∈ p.2)
    (huniq : ∀ p ∈ fp, idx ∈ p.2 → p.1 = c)
    (hc : c < ctx.n_clusters) (hidx : idx < X.length) (rng : ℕ) (t : ℚ) :
    (∀ labs ∈ (runLevel ctx X w fp capacity rng t).trace,
      labs.getD idx 0 = c)
    ∧ (runLevel ctx X w fp capacity rng t).labels.getD idx 0 = c := by
  have hfp : fp ≠ [] := by
    rcases hex with ⟨p, hp, _⟩
    intro hnil
    rw [hnil] at hp
    exact List.not_mem_nil p hp
  have hic : ((initial_centers ctx rng X).1).length = ctx.n_clusters := by
    simp only [initial_centers, List.length_map]
    exact hsamp rng X.length ctx.n_clusters
  have hcen0 : (if fp = [] then (initial_centers ctx rng X).1
      else set_centers_for_anchors (initial_centers ctx rng X).1 X fp).length
      = ctx.n_clusters := by
    rw [if_neg hfp, scfa_length]
    exact hic
  have hlev : runLevel ctx X w fp capacity rng t =
      ⟨(innerLoop ctx X w fp capacity ctx.max_iters
          ⟨t, ctx.lamb,
            if fp = [] then (initial_centers ctx rng X).1
            else set_centers_for_anchors (initial_centers ctx rng X).1 X fp,
            [], []⟩).labels,
        (innerLoop ctx X w fp capacity ctx.max_iters
          ⟨t, ctx.lamb,
            if fp = [] then (initial_centers ctx rng X).1
            else set_centers_for_anchors (initial_centers ctx rng X).1 X fp,
            [], []⟩).centers,
        (innerLoop ctx X w fp capacity ctx.max_iters
          ⟨t, ctx.lamb,
            if fp = [] then (initial_centers ctx rng X).1
            else set_centers_for_anchors (initial_centers ctx rng X).1 X fp,
            [], []⟩).eta,
        (innerLoop ctx X w fp capacity ctx.max_iters
          ⟨t, ctx.lamb,
            if fp = [] then (initial_centers ctx rng X).1
            else set_centers_for_anchors (initial_centers ctx rng X).1 X fp,
            [], []⟩).trace,
        (initial_centers ctx rng X).2⟩ := by
    simp only [runLevel]
  obtain ⟨h1, h2, h3⟩ := innerLoop_anchor ctx X w fp capacity c idx hdist hlen
    hex huniq hc hidx ctx.max_iters
    ⟨t, ctx.lamb,
      if fp = [] then (initial_centers ctx rng X).1
      else set_centers_for_anchors (initial_centers ctx rng X).1 X fp,
      [], []⟩ hcen0
  rw [hlev]
  constructor
  · intro labs hmem
    rcases h2 labs hmem with hfalse | hgood
    · exact absurd hfalse (List.not_mem_nil labs)
    · exact hgood
  · exact h3 hmi

theorem levelResults_anchor (ctx : Ctx) (X : Mat) (w : List ℚ)
    (fp : List (ℕ × List ℕ)) (capacity : List ℚ) (c idx : ℕ)
    (hdist : ∀ A B, (ctx.dist A B).length = A.length ∧
      ∀ r ∈ ctx.dist A B, r.length = B.length)
    (hsamp : ∀ rng n k, ((ctx.sampler rng n k).1).length = k)
    (hlen : ctx.lamb.length = ctx.n_clusters)
    (hmi : 1 ≤ ctx.max_iters)
    (hex : ∃ p, p ∈ fp ∧ idx ∈ p.2)
    (huniq : ∀ p ∈ fp, idx ∈ p.2 → p.1 = c)
    (hc : c < ctx.n_clusters) (hidx : idx < X.length) :
    ∀ (sched : List ℚ) (rng : ℕ),
      ∀ lv ∈ levelResults ctx X w fp capacity sched rng,
        (∀ labs ∈ lv.trace, labs.getD idx 0 = c)
        ∧ lv.labels.getD idx 0 = c := by
  intro sched
  induction sched with
  | nil =>
    intro rng lv hlv
    exact absurd hlv (List.not_mem_nil lv)
  | cons t rest ih =>
    intro rng lv hlv
    simp only [levelResults, List.mem_cons] at hlv
    rcases hlv with h1 | h2
    · rw [h1]
      exact runLevel_anchor ctx X w fp capacity c idx hdist hsamp hlen hmi hex
        huniq hc hidx rng t
    · exact ih _ lv h2

/-! ### First hit index -/

def firstIdx {α : Type} (p : α → Bool) : List α → ℕ
  | [] => 0
  | a :: l => if p a then 0 else firstIdx p l + 1

theorem firstIdx_spec {α : Type} (p : α → Bool) (d : α) :
    ∀ l : List α, (∃ a ∈ l, p a = true) →
      firstIdx p l < l.length ∧ p (l.getD (firstIdx p l) d) = true
      ∧ ∀ i, i < firstIdx p l → p (l.getD i d) = false := by
  intro l
  induction l with
  | nil =>
    intro h
    rcases h with ⟨a, ha, _⟩
    exact absurd ha (List.not_mem_nil a)
  | cons a l ih =>
    intro hex
    by_cases hpa : p a = true
    · refine ⟨?_, ?_, ?_⟩
      · simp [firstIdx, hpa]
      · simp [firstIdx, hpa]
      · intro i hi
        simp [firstIdx, hpa] at hi
    · have hpaf : p a = false := by
        cases hv : p a with
        | true => exact absurd hv hpa
        | false => rfl
      have hex2 : ∃ b ∈ l, p b = true := by
        rcases hex with ⟨b, hb, hpb⟩
        rcases List.mem_cons.mp hb with h1 | h2
        · exact absurd (h1 ▸ hpb) hpa
        · exact ⟨b, h2, hpb⟩
      obtain ⟨h1, h2, h3⟩ := ih hex2
      refine ⟨?_, ?_, ?_⟩
      · simp only [firstIdx, if_neg hpa, List.length_cons]
        omega
      · simpa [firstIdx, hpa] using h2
      · intro i hi
        simp only [firstIdx, if_neg hpa] at hi
        cases i with
        | zero => simpa using hpaf
        | succ m =>
          have : m < firstIdx p l := by omega
          simpa using h3 m this

/-! ### Auxiliary predicates for construction validation -/

/-- A Python value that is an int with value at least 1. -/
def isPosInt : PyNum → Prop
  | .int z => 1 ≤ z
  | .float _ => False

/-- isPosInt through the Boolean projections used by da_init. -/
theorem isPosInt_iff (x : PyNum) :
    isPosInt x ↔ (isIntNum x = true ∧ 1 ≤ intVal x) := by
  cases x <;> simp [isPosInt, isIntNum, intVal]

/-- The not-callable condition through its Boolean form. -/
theorem notCallable_iff (df : PyVal) :
    df ≠ .notCallable ↔ notCallableB df = false := by
  cases df <;> simp [notCallableB]

/-- Fitted state used in the C1 counterexample: two stored centers, stored
eta (1, 10), one stored demand weight. -/
def stC1 : Fitted := ⟨[[0], [1]], [0], [1, 10], [1]⟩

/-! ### Claim theorems -/

/-- C1, counterexample: the claim says predict runs one Gibbs update on the
stored eta with no further multiplier refinement; the code refines eta
once before the Gibbs update, and on this concrete fitted state the two
recipes return different labels ([0] versus [1]). -/
theorem c1_counterexample :
    predict rexpOne sqcdist [1 / 2, 1 / 2] 1 stC1 [[0]] ≠
      predictClaimed rexpOne sqcdist 1 stC1 [[0]] := by
  with_unfolding_all decide

/-- C1 (amended): predict computes the distance matrix from X to the stored
centers, performs exactly one eta refinement from the stored eta and
stored demand vector, performs one Gibbs update using the refined eta
with no temperature decay, and returns the per-row argmax labels. -/
theorem c1_predict_described (rexp : ℚ → ℚ) (dist : Mat → Mat → Mat)
    (lamb : List ℚ) (beta : ℚ) (st : Fitted) (X : Mat) :
    predict rexp dist lamb beta st X =
      predictDescribed rexp dist lamb beta st X := rfl

/-- C3: the capacity checker accepts exactly when every cluster id below
the distribution length occurs among the labels and each count is at
most its capacity n * lambda_j, with the capacity list recomputed from
the current point count n as in fit. -/
theorem c3_capacity_checker (lamb : List ℚ) (n : ℕ) (labels : List ℕ) :
    _is_satisfied (lamb.map fun l => (n : ℚ) * l) labels = true ↔
      ∀ cl, cl < lamb.length →
        cl ∈ labels ∧ (labels.count cl : ℚ) ≤ (n : ℚ) * lamb.getD cl 0 := by
  simp only [_is_satisfied, List.all_eq_true, List.mem_range,
    Bool.and_eq_true, decide_eq_true_eq, List.length_map]
  constructor
  · intro h cl hcl
    obtain ⟨h1, h2⟩ := h cl hcl
    refine ⟨h1, ?_⟩
    rw [getD_map (fun l => (n : ℚ) * l) lamb 0 0 cl hcl] at h2
    exact h2
  · intro h cl hcl
    obtain ⟨h1, h2⟩ := h cl hcl
    refine ⟨h1, ?_⟩
    rw [getD_map (fun l => (n : ℚ) * l) lamb 0 0 cl hcl]
    exact h2

/-- C6: whenever every row denominator of the Gibbs update is nonzero,
every row of the returned matrix sums to 1. -/
theorem c6_gibbs_rows_sum_one (rexp : ℚ → ℚ) (beta : ℚ) (eta : List ℚ)
    (D : Mat)
    (h : ∀ drow ∈ D,
      (List.zipWith (fun d e => rexp (-(beta * d)) * e) drow eta).sum ≠ 0) :
    ∀ row ∈ update_gibbs rexp beta eta D, row.sum = 1 := by
  intro row hrow
  simp only [update_gibbs, List.mem_map] at hrow
  rcases hrow with ⟨drow, hd, heq⟩
  rw [← heq]
  show ((List.zipWith (fun d e => rexp (-(beta * d)) * e) drow eta).map
    fun x =>
      x / (List.zipWith (fun d e => rexp (-(beta * d)) * e) drow eta).sum).sum
    = 1
  rw [sum_map_div]
  exact div_self (h drow hd)

/-- C6 witness: concrete nonzero-denominator input, rows summing to 1. -/
theorem c6_witness :
    (∀ drow ∈ ([[(0 : ℚ)]] : Mat),
      (List.zipWith (fun d e => rexpOne (-((1 : ℚ) * d)) * e) drow
        [(1 : ℚ)]).sum ≠ 0)
    ∧ ∀ row ∈ update_gibbs rexpOne 1 [1] [[0]], row.sum = 1 :=
  ⟨by with_unfolding_all decide,
    c6_gibbs_rows_sum_one rexpOne 1 [1] [[0]] (by with_unfolding_all decide)⟩

/-- C7, counterexample: the claim says construction fails whenever the
given distance function is not callable, but Base accepts a None
distance function (which is not callable) and construction succeeds. -/
theorem c7_counterexample :
    isCallable PyVal.pynone = false ∧
    (da_init (.int 2) [1 / 2, 1 / 2] (.int 1000) .pynone
      (some [1])).isOk = true := ⟨rfl, by with_unfolding_all decide⟩

/-- C7 (amended): construction succeeds exactly when the cluster count and
the iteration budget are positive ints, the distance function is None or
callable (a non-callable non-None value fails), the distribution sum
rounds to 1 at 3 decimals, and the distribution length equals the
cluster count. -/
theorem c7_construction_validation (nc mi : PyNum) (distribution : List ℚ)
    (df : PyVal) (T : Option (List ℚ)) :
    (da_init nc distribution mi df T).isOk = true ↔
      (isPosInt nc ∧ isPosInt mi ∧ df ≠ .notCallable
        ∧ round3 distribution.sum = 1
        ∧ (distribution.length : ℤ) = intVal nc) := by
  rw [isPosInt_iff nc, isPosInt_iff mi, notCallable_iff df]
  simp only [da_init]
  split_ifs with h1 h2 h3 h4 h5 h6 h7
  · apply iff_of_false
    · intro h
      exact Bool.noConfusion h
    · rintro ⟨⟨ha, -⟩, -⟩
      rw [h1] at ha
      exact Bool.noConfusion ha
  · apply iff_of_false
    · intro h
      exact Bool.noConfusion h
    · rintro ⟨⟨-, ha⟩, -⟩
      omega
  · apply iff_of_false
    · intro h
      exact Bool.noConfusion h
    · rintro ⟨-, ⟨ha, -⟩, -⟩
      rw [h3] at ha
      exact Bool.noConfusion ha
  · apply iff_of_false
    · intro h
      exact Bool.noConfusion h
    · rintro ⟨-, ⟨-, ha⟩, -⟩
      omega
  · apply iff_of_false
    · intro h
      exact Bool.noConfusion h
    · rintro ⟨-, -, ha, -⟩
      rw [h5] at ha
      exact Bool.noConfusion ha
  · apply iff_of_false
    · intro h
      exact Bool.noConfusion h
    · rintro ⟨-, -, -, ha, -⟩
      exact h6 ha
  · apply iff_of_false
    · intro h
      exact Bool.noConfusion h
    · rintro ⟨-, -, -, -, ha⟩
      exact h7 ha
  · apply iff_of_true
    · rfl
    · refine ⟨⟨?_, ?_⟩, ⟨?_, ?_⟩, ?_, ?_, ?_⟩
      · simpa using h1
      · omega
      · simpa using h3
      · omega
      · simpa using h5
      · exact not_not.mp h6
      · exact not_not.mp h7

/-- C8: identical random_state, inputs and schedule produce identical
fitted state; in this embedding the seeded global RNG is a pure function
of random_state, so reproducibility is congruence of fit. -/
theorem c8_reproducibility (ctx : Ctx) (T : Option (List ℚ)) (s1 s2 : ℕ)
    (X : Mat) (demands : Option (List ℚ)) (fp : List (ℕ × List ℕ))
    (h : s1 = s2) :
    fit ctx T s1 X demands fp = fit ctx T s2 X demands fp := by rw [h]

/-- C8 witness: two runs with seed 42 on the same inputs agree. -/
theorem c8_witness :
    (42 : ℕ) = 42 ∧
    fit ctxC (some [1]) 42 [[0], [0]] none [] =
      fit ctxC (some [1]) 42 [[0], [0]] none [] :=
  ⟨rfl, c8_reproducibility ctxC (some [1]) 42 42 [[0], [0]] none [] rfl⟩

/-- C9: evaluating modify at a concrete overloaded input: three points all
labelled 0, capacity [3/2, 3/2] (n = 3, distribution = [0.5, 0.5]); the
excess 3 - 3/2 is fractional, so the argsort slice raises TypeError in
the source instead of reassigning any points. -/
theorem c9_rebalance_crash :
    modify sqcdist [3 / 2, 3 / 2] id (fun l => l.headD 0) [0, 0, 0]
      [[0], [1]] [[0, 1], [0, 1], [0, 1]] 5 =
      .error "TypeError: slice indices must be integers" := by
  with_unfolding_all rfl

/-- C10, counterexample: with T = None, a call to fit whose demands_prob
has the wrong length fails the shape assertion before the schedule is
touched, so not every fit call fails by iterating over None. -/
theorem c10_counterexample :
    fit ctxC none 0 [[0], [0]] (some [1]) [] = .error .inputShapeError ∧
    FitErr.inputShapeError ≠ FitErr.noneIterError := ⟨rfl, by decide⟩

/-- C10 (amended): with T = None, every fit call that passes the
demand-probability validation fails by iterating over None, and no fit
call with T = None ever produces a fitted state. -/
theorem c10_none_schedule (ctx : Ctx) (seed : ℕ) (X : Mat)
    (demands : Option (List ℚ)) (fp : List (ℕ × List ℕ)) (d0 : List ℚ)
    (hw : rawDemands X.length demands = some d0) :
    fit ctx none seed X demands fp = .error .noneIterError ∧
    ∀ res : Fitted, fit ctx none seed X demands fp ≠ .ok res := by
  have h1 : fit ctx none seed X demands fp = .error .noneIterError := by
    simp only [fit, hw]
  refine ⟨h1, fun res hok => ?_⟩
  rw [h1] at hok
  exact Except.noConfusion hok

/-- C10 witness: a concrete valid-demands call with T = None. -/
theorem c10_witness :
    rawDemands 2 (none : Option (List ℚ)) = some [1, 1] ∧
    (fit ctxC none 7 [[0], [1]] none [] = .error .noneIterError ∧
      ∀ res : Fitted, fit ctxC none 7 [[0], [1]] none [] ≠ .ok res) :=
  ⟨rfl, c10_none_schedule ctxC 7 [[0], [1]] none [] [1, 1] rfl⟩

/-! ### fit through the scheduler -/

/-- fit with a valid demand vector and a concrete schedule, expressed
through the scheduler loop. -/
theorem fit_some (ctx : Ctx) (sched : List ℚ) (seed : ℕ) (X : Mat)
    (demands : Option (List ℚ)) (fp : List (ℕ × List ℕ)) (d0 : List ℚ)
    (hw : rawDemands X.length demands = some d0) :
    fit ctx (some sched) seed X demands fp =
      (let r := runSchedule ctx X (normalize d0) fp
        (ctx.lamb.map fun l => ((X.length : ℕ) : ℚ) * l) sched seed
        ⟨[], [], ctx.lamb, false, [], []⟩
       let sel := if r.early then (r.labels, r.centers)
         else r.solutions.getD (argminList r.diffs) ([], [])
       Except.ok ⟨sel.2, sel.1, r.eta, normalize d0⟩) := by
  simp only [fit, hw]

/-- Realized-count deviation of one level, |distinct labels - k|. -/
def levelDev (ctx : Ctx) (lv : LevelOut) : ℕ :=
  natAbsDiff (distinctCount lv.labels) ctx.n_clusters

/-- Helper: the value fit persists on the fallback path. -/
theorem fit_fallback_eq (ctx : Ctx) (X : Mat)
    (demands : Option (List ℚ)) (fp : List (ℕ × List ℕ)) (sched : List ℚ)
    (seed : ℕ) (d0 : List ℚ)
    (hw : rawDemands X.length demands = some d0)
    (hs : sched ≠ [])
    (hnohit : ∀ lv ∈ fitOuts ctx X (normalize d0) fp sched seed,
      distinctCount lv.labels ≠ ctx.n_clusters) :
    fit ctx (some sched) seed X demands fp = .ok
      ⟨((fitOuts ctx X (normalize d0) fp sched seed).getD
          (argminList ((fitOuts ctx X (normalize d0) fp sched seed).map
            (fun lv => levelDev ctx lv))) dummyLv).centers,
       ((fitOuts ctx X (normalize d0) fp sched seed).getD
          (argminList ((fitOuts ctx X (normalize d0) fp sched seed).map
            (fun lv => levelDev ctx lv))) dummyLv).labels,
       ((fitOuts ctx X (normalize d0) fp sched seed).map
          LevelOut.eta).getLastD ctx.lamb,
       normalize d0⟩ := by
  have houts : fitOuts ctx X (normalize d0) fp sched seed =
      levelResults ctx X (normalize d0) fp
        (ctx.lamb.map fun l => ((X.length : ℕ) : ℚ) * l) sched seed := rfl
  rw [fit_some ctx sched seed X demands fp d0 hw]
  rw [houts] at hnohit ⊢
  have hchar := runSchedule_nohit ctx X (normalize d0) fp
    (ctx.lamb.map fun l => ((X.length : ℕ) : ℚ) * l) sched seed
    ⟨[], [], ctx.lamb, false, [], []⟩ hnohit
  have hlen0 : (levelResults ctx X (normalize d0) fp
      (ctx.lamb.map fun l => ((X.length : ℕ) : ℚ) * l) sched seed).length
      = sched.length := length_levelResults ctx X (normalize d0) fp _ sched seed
  have houtsne : (levelResults ctx X (normalize d0) fp
      (ctx.lamb.map fun l => ((X.length : ℕ) : ℚ) * l) sched seed) ≠ [] := by
    intro hnil
    rw [hnil] at hlen0
    exact hs (List.length_eq_zero.mp hlen0.symm)
  have hmapne : ((levelResults ctx X (normalize d0) fp
      (ctx.lamb.map fun l => ((X.length : ℕ) : ℚ) * l) sched seed).map
      (fun lv => natAbsDiff (distinctCount lv.labels) ctx.n_clusters)) ≠ [] := by
    intro hnil
    exact houtsne (List.map_eq_nil.mp hnil)
  obtain ⟨hblt, -, -⟩ := argminList_spec _ hmapne
  rw [List.length_map] at hblt
  have hgd : ((levelResults ctx X (normalize d0) fp
      (ctx.lamb.map fun l => ((X.length : ℕ) : ℚ) * l) sched seed).map
        (fun lv => (lv.labels, lv.centers))).getD
      (argminList ((levelResults ctx X (normalize d0) fp
        (ctx.lamb.map fun l => ((X.length : ℕ) : ℚ) * l) sched seed).map
        (fun lv => natAbsDiff (distinctCount lv.labels) ctx.n_clusters)))
      ([], []) =
      (((levelResults ctx X (normalize d0) fp
        (ctx.lamb.map fun l => ((X.length : ℕ) : ℚ) * l) sched seed).getD
        (argminList ((levelResults ctx X (normalize d0) fp
          (ctx.lamb.map fun l => ((X.length : ℕ) : ℚ) * l) sched seed).map
          (fun lv => natAbsDiff (distinctCount lv.labels) ctx.n_clusters)))
        dummyLv).labels,
       ((levelResults ctx X (normalize d0) fp
        (ctx.lamb.map fun l => ((X.length : ℕ) : ℚ) * l) sched seed).getD
        (argminList ((levelResults ctx X (normalize d0) fp
          (ctx.lamb.map fun l => ((X.length : ℕ) : ℚ) * l) sched seed).map
          (fun lv => natAbsDiff (distinctCount lv.labels) ctx.n_clusters)))
        dummyLv).centers) :=
    getD_map (fun lv => (lv.labels, lv.centers)) _ dummyLv ([], []) _ hblt
  simp only [levelDev]
  rw [hchar]
  simp only [List.nil_append]
  rw [if_neg Bool.false_ne_true]
  rw [hgd]

/-- Helper: the value fit persists when level j is the first level whose
realized distinct-label count equals n_clusters (early termination). -/
theorem fit_early_eq (ctx : Ctx) (X : Mat) (demands : Option (List ℚ))
    (fp : List (ℕ × List ℕ)) (sched : List ℚ) (seed : ℕ) (d0 : List ℚ)
    (hw : rawDemands X.length demands = some d0) (j : ℕ)
    (hjlt : j < (fitOuts ctx X (normalize d0) fp sched seed).length)
    (hjfirst : ∀ i, i < j → distinctCount ((fitOuts ctx X (normalize d0) fp
      sched seed).getD i dummyLv).labels ≠ ctx.n_clusters)
    (hjhit : distinctCount ((fitOuts ctx X (normalize d0) fp sched
      seed).getD j dummyLv).labels = ctx.n_clusters) :
    fit ctx (some sched) seed X demands fp = .ok
      ⟨((fitOuts ctx X (normalize d0) fp sched seed).getD j dummyLv).centers,
       ((fitOuts ctx X (normalize d0) fp sched seed).getD j dummyLv).labels,
       ((fitOuts ctx X (normalize d0) fp sched seed).getD j dummyLv).eta,
       normalize d0⟩ := by
  have houts : fitOuts ctx X (normalize d0) fp sched seed =
      levelResults ctx X (normalize d0) fp
        (ctx.lamb.map fun l => ((X.length : ℕ) : ℚ) * l) sched seed := rfl
  rw [fit_some ctx sched seed X demands fp d0 hw]
  rw [houts] at hjlt hjfirst hjhit ⊢
  have hchar := runSchedule_early ctx X (normalize d0) fp
    (ctx.lamb.map fun l => ((X.length : ℕ) : ℚ) * l) sched seed
    ⟨[], [], ctx.lamb, false, [], []⟩ j hjlt hjfirst hjhit
  rw [hchar]
  rfl

/-- C2: on the fallback path (no temperature level realized exactly
n_clusters distinct labels, so no early termination), the persisted
fitted state is the selected level's labels and centers — the level of
first minimal realized-count deviation — together with the eta variable
as it stands at the time of selection (the last executed level's eta)
and the normalized demand vector. -/
theorem c2_fallback_persisted (ctx : Ctx) (X : Mat)
    (demands : Option (List ℚ)) (fp : List (ℕ × List ℕ)) (sched : List ℚ)
    (seed : ℕ) (d0 : List ℚ)
    (hw : rawDemands X.length demands = some d0)
    (hs : sched ≠ [])
    (hnohit : ∀ lv ∈ fitOuts ctx X (normalize d0) fp sched seed,
      distinctCount lv.labels ≠ ctx.n_clusters) :
    fit ctx (some sched) seed X demands fp = .ok
      ⟨((fitOuts ctx X (normalize d0) fp sched seed).getD
          (argminList ((fitOuts ctx X (normalize d0) fp sched seed).map
            (fun lv => levelDev ctx lv))) dummyLv).centers,
       ((fitOuts ctx X (normalize d0) fp sched seed).getD
          (argminList ((fitOuts ctx X (normalize d0) fp sched seed).map
            (fun lv => levelDev ctx lv))) dummyLv).labels,
       ((fitOuts ctx X (normalize d0) fp sched seed).map
          LevelOut.eta).getLastD ctx.lamb,
       normalize d0⟩ :=
  fit_fallback_eq ctx X demands fp sched seed d0 hw hs hnohit

/-- C4: the scheduler stops at the first level whose realized
distinct-label count equals n_clusters and persists exactly that level's
labels and centers, having recorded exactly j + 1 solutions; if no level
hits, the persisted labels and centers come from the level of minimal
realized-count deviation, the first such level under ties. -/
theorem c4_schedule_selection (ctx : Ctx) (X : Mat)
    (demands : Option (List ℚ)) (fp : List (ℕ × List ℕ)) (sched : List ℚ)
    (seed : ℕ) (d0 : List ℚ)
    (hw : rawDemands X.length demands = some d0)
    (hs : sched ≠ []) :
    ∃ res : Fitted, fit ctx (some sched) seed X demands fp = .ok res ∧
      ((∃ j, j < (fitOuts ctx X (normalize d0) fp sched seed).length
          ∧ distinctCount ((fitOuts ctx X (normalize d0) fp sched seed).getD j
              dummyLv).labels = ctx.n_clusters
          ∧ (∀ i, i < j → distinctCount ((fitOuts ctx X (normalize d0) fp
              sched seed).getD i dummyLv).labels ≠ ctx.n_clusters)
          ∧ res.labels_ = ((fitOuts ctx X (normalize d0) fp sched seed).getD j
              dummyLv).labels
          ∧ res.cluster_centers_ = ((fitOuts ctx X (normalize d0) fp sched
              seed).getD j dummyLv).centers
          ∧ (runSchedule ctx X (normalize d0) fp
              (ctx.lamb.map fun l => ((X.length : ℕ) : ℚ) * l) sched seed
              ⟨[], [], ctx.lamb, false, [], []⟩).solutions.length = j + 1)
        ∨
        ((∀ i, i < (fitOuts ctx X (normalize d0) fp sched seed).length →
            distinctCount ((fitOuts ctx X (normalize d0) fp sched seed).getD i
              dummyLv).labels ≠ ctx.n_clusters)
          ∧ ∃ b, b < (fitOuts ctx X (normalize d0) fp sched seed).length
            ∧ (∀ i, i < (fitOuts ctx X (normalize d0) fp sched seed).length →
                levelDev ctx ((fitOuts ctx X (normalize d0) fp sched
                  seed).getD b dummyLv) ≤ levelDev ctx ((fitOuts ctx X
                  (normalize d0) fp sched seed).getD i dummyLv))
            ∧ (∀ i, i < b →
                levelDev ctx ((fitOuts ctx X (normalize d0) fp sched
                  seed).getD b dummyLv) < levelDev ctx ((fitOuts ctx X
                  (normalize d0) fp sched seed).getD i dummyLv))
            ∧ res.labels_ = ((fitOuts ctx X (normalize d0) fp sched
                seed).getD b dummyLv).labels
            ∧ res.cluster_centers_ = ((fitOuts ctx X (normalize d0) fp sched
                seed).getD b dummyLv).centers)) := by
  by_cases hall : ∀ lv ∈ fitOuts ctx X (normalize d0) fp sched seed,
    distinctCount lv.labels ≠ ctx.n_clusters
  · refine ⟨⟨((fitOuts ctx X (normalize d0) fp sched seed).getD
        (argminList ((fitOuts ctx X (normalize d0) fp sched seed).map
          (fun lv => levelDev ctx lv))) dummyLv).centers,
      ((fitOuts ctx X (normalize d0) fp sched seed).getD
        (argminList ((fitOuts ctx X (normalize d0) fp sched seed).map
          (fun lv => levelDev ctx lv))) dummyLv).labels,
      ((fitOuts ctx X (normalize d0) fp sched seed).map
        LevelOut.eta).getLastD ctx.lamb,
      normalize d0⟩,
      fit_fallback_eq ctx X demands fp sched seed d0 hw hs hall, Or.inr ?_⟩
    have houtsne : fitOuts ctx X (normalize d0) fp sched seed ≠ [] := by
      intro hnil
      have := length_levelResults ctx X (normalize d0) fp
        (ctx.lamb.map fun l => ((X.length : ℕ) : ℚ) * l) sched seed
      rw [show levelResults ctx X (normalize d0) fp
        (ctx.lamb.map fun l => ((X.length : ℕ) : ℚ) * l) sched seed
        = fitOuts ctx X (normalize d0) fp sched seed from rfl, hnil] at this
      exact hs (List.length_eq_zero.mp this.symm)
    have hmapne : ((fitOuts ctx X (normalize d0) fp sched seed).map
        (fun lv => levelDev ctx lv)) ≠ [] := by
      intro hnil
      exact houtsne (List.map_eq_nil.mp hnil)
    obtain ⟨hblt, hbmin, hbfirst⟩ := argminList_spec _ hmapne
    rw [List.length_map] at hblt
    refine ⟨fun i hi => hall _ (getD_mem _ dummyLv i hi),
      argminList ((fitOuts ctx X (normalize d0) fp sched seed).map
        (fun lv => levelDev ctx lv)), hblt, ?_, ?_, rfl, rfl⟩
    · intro i hi
      have h1 := hbmin i (by rw [List.length_map]; exact hi)
      rw [getD_map (fun lv => levelDev ctx lv) _ dummyLv 0 _ hblt,
        getD_map (fun lv => levelDev ctx lv) _ dummyLv 0 i hi] at h1
      exact h1
    · intro i hi
      have hilt : i < (fitOuts ctx X (normalize d0) fp sched seed).length :=
        lt_trans hi hblt
      have h1 := hbfirst i hi
      rw [getD_map (fun lv => levelDev ctx lv) _ dummyLv 0 _ hblt,
        getD_map (fun lv => levelDev ctx lv) _ dummyLv 0 i hilt] at h1
      exact h1
  · push_neg at hall
    obtain ⟨lv0, hlv0mem, hlv0hit⟩ := hall
    have hex : ∃ a ∈ fitOuts ctx X (normalize d0) fp sched seed,
        (fun lv => decide (distinctCount lv.labels = ctx.n_clusters)) a
          = true := ⟨lv0, hlv0mem, decide_eq_true hlv0hit⟩
    obtain ⟨hjlt, hjhit, hjfirst⟩ := firstIdx_spec
      (fun lv => decide (distinctCount lv.labels = ctx.n_clusters)) dummyLv
      (fitOuts ctx X (normalize d0) fp sched seed) hex
    have hjhit2 : distinctCount ((fitOuts ctx X (normalize d0) fp sched
        seed).getD (firstIdx
          (fun lv => decide (distinctCount lv.labels = ctx.n_clusters))
          (fitOuts ctx X (normalize d0) fp sched seed)) dummyLv).labels
        = ctx.n_clusters := of_decide_eq_true hjhit
    have hjfirst2 : ∀ i, i < firstIdx
        (fun lv => decide (distinctCount lv.labels = ctx.n_clusters))
        (fitOuts ctx X (normalize d0) fp sched seed) →
        distinctCount ((fitOuts ctx X (normalize d0) fp sched seed).getD i
          dummyLv).labels ≠ ctx.n_clusters :=
      fun i hi => of_decide_eq_false (hjfirst i hi)
    refine ⟨⟨((fitOuts ctx X (normalize d0) fp sched seed).getD (firstIdx
        (fun lv => decide (distinctCount lv.labels = ctx.n_clusters))
        (fitOuts ctx X (normalize d0) fp sched seed)) dummyLv).centers,
      ((fitOuts ctx X (normalize d0) fp sched seed).getD (firstIdx
        (fun lv => decide (distinctCount lv.labels = ctx.n_clusters))
        (fitOuts ctx X (normalize d0) fp sched seed)) dummyLv).labels,
      ((fitOuts ctx X (normalize d0) fp sched seed).getD (firstIdx
        (fun lv => decide (distinctCount lv.labels = ctx.n_clusters))
        (fitOuts ctx X (normalize d0) fp sched seed)) dummyLv).eta,
      normalize d0⟩,
      fit_early_eq ctx X demands fp sched seed d0 hw _ hjlt hjfirst2 hjhit2,
      Or.inl ⟨firstIdx
        (fun lv => decide (distinctCount lv.labels = ctx.n_clusters))
        (fitOuts ctx X (normalize d0) fp sched seed), hjlt, hjhit2, hjfirst2,
        rfl, rfl, ?_⟩⟩
    have hchar := runSchedule_early ctx X (normalize d0) fp
      (ctx.lamb.map fun l => ((X.length : ℕ) : ℚ) * l) sched seed
      ⟨[], [], ctx.lamb, false, [], []⟩ _ hjlt hjfirst2 hjhit2
    rw [hchar]
    simp only [List.nil_append, List.length_map, List.length_take]
    rw [show levelResults ctx X (normalize d0) fp
      (ctx.lamb.map fun l => ((X.length : ℕ) : ℚ) * l) sched seed
      = fitOuts ctx X (normalize d0) fp sched seed from rfl]
    omega

/-- C5: with fixed_points given, an anchored point's Gibbs row is forced
to the one-hot vector of its anchored cluster (zero row, then 1 at the
anchored column), its argmax hard label equals the anchored cluster in
every inner-loop iteration of every level, and the final persisted
labels_ also carry the anchored cluster at that point, regardless of the
distances involved. -/
theorem c5_anchored_labels (ctx : Ctx) (X : Mat) (demands : Option (List ℚ))
    (fp : List (ℕ × List ℕ)) (sched : List ℚ) (seed : ℕ) (d0 : List ℚ)
    (c idx : ℕ) (pts : List ℕ)
    (hdist : ∀ A B, (ctx.dist A B).length = A.length ∧
      ∀ r ∈ ctx.dist A B, r.length = B.length)
    (hsamp : ∀ rng n k, ((ctx.sampler rng n k).1).length = k)
    (hlen : ctx.lamb.length = ctx.n_clusters)
    (hmi : 1 ≤ ctx.max_iters)
    (hw : rawDemands X.length demands = some d0)
    (hs : sched ≠ [])
    (hmem : (c, pts) ∈ fp) (hpt : idx ∈ pts)
    (huniq : ∀ p ∈ fp, idx ∈ p.2 → p.1 = c)
    (hc : c < ctx.n_clusters) (hidx : idx < X.length) :
    (∀ g : Mat, idx < g.length →
      (set_gibbs_fixed_points g fp).getD idx [] =
        ((g.getD idx []).map fun _ => (0 : ℚ)).set c 1)
    ∧ (∀ lv ∈ fitOuts ctx X (normalize d0) fp sched seed,
        ∀ labs ∈ lv.trace, labs.getD idx 0 = c)
    ∧ ∃ res : Fitted, fit ctx (some sched) seed X demands fp = .ok res
        ∧ res.labels_.getD idx 0 = c := by
  have hex : ∃ p, p ∈ fp ∧ idx ∈ p.2 := ⟨(c, pts), hmem, hpt⟩
  have hanchor := levelResults_anchor ctx X (normalize d0) fp
    (ctx.lamb.map fun l => ((X.length : ℕ) : ℚ) * l) c idx hdist hsamp hlen
    hmi hex huniq hc hidx sched seed
  refine ⟨fun g hg => sgfp_forced c idx fp g hex huniq hg,
    fun lv hlv labs hlabs => (hanchor lv hlv).1 labs hlabs, ?_⟩
  by_cases hall : ∀ lv ∈ fitOuts ctx X (normalize d0) fp sched seed,
    distinctCount lv.labels ≠ ctx.n_clusters
  · have houtsne : fitOuts ctx X (normalize d0) fp sched seed ≠ [] := by
      intro hnil
      have := length_levelResults ctx X (normalize d0) fp
        (ctx.lamb.map fun l => ((X.length : ℕ) : ℚ) * l) sched seed
      rw [show levelResults ctx X (normalize d0) fp
        (ctx.lamb.map fun l => ((X.length : ℕ) : ℚ) * l) sched seed
        = fitOuts ctx X (normalize d0) fp sched seed from rfl, hnil] at this
      exact hs (List.length_eq_zero.mp this.symm)
    have hmapne : ((fitOuts ctx X (normalize d0) fp sched seed).map
        (fun lv => levelDev ctx lv)) ≠ [] := by
      intro hnil
      exact houtsne (List.map_eq_nil.mp hnil)
    obtain ⟨hblt, -, -⟩ := argminList_spec _ hmapne
    rw [List.length_map] at hblt
    refine ⟨_, fit_fallback_eq ctx X demands fp sched seed d0 hw hs hall, ?_⟩
    exact (hanchor _ (getD_mem _ dummyLv _ hblt)).2
  · push_neg at hall
    obtain ⟨lv0, hlv0mem, hlv0hit⟩ := hall
    have hexhit : ∃ a ∈ fitOuts ctx X (normalize d0) fp sched seed,
        (fun lv => decide (distinctCount lv.labels = ctx.n_clusters)) a
          = true := ⟨lv0, hlv0mem, decide_eq_true hlv0hit⟩
    obtain ⟨hjlt, hjhit, hjfirst⟩ := firstIdx_spec
      (fun lv => decide (distinctCount lv.labels = ctx.n_clusters)) dummyLv
      (fitOuts ctx X (normalize d0) fp sched seed) hexhit
    refine ⟨_, fit_early_eq ctx X demands fp sched seed d0 hw _ hjlt
      (fun i hi => of_decide_eq_false (hjfirst i hi))
      (of_decide_eq_true hjhit), ?_⟩
    exact (hanchor _ (getD_mem _ dummyLv _ hjlt)).2

/-- The concrete witness distance function is a proper pairwise distance:
one row per left point, one column per right point. -/
theorem sqcdist_shape : ∀ A B : Mat, (sqcdist A B).length = A.length ∧
    ∀ r ∈ sqcdist A B, r.length = B.length := by
  intro A B
  constructor
  · simp [sqcdist]
  · intro r hr
    simp only [sqcdist, List.mem_map] at hr
    obtain ⟨a, -, rfl⟩ := hr
    simp

/-- The concrete witness sampler returns exactly k indices. -/
theorem samplerR_len : ∀ rng n k : ℕ, ((samplerR rng n k).1).length = k :=
  fun _ _ k => List.length_range k

/-- C2 witness: a one-level schedule on two identical points where the
level realizes a single distinct label (no early termination), fitted
through the fallback selection. -/
theorem c2_witness :
    rawDemands 2 (none : Option (List ℚ)) = some [1, 1] ∧
    ([(1 : ℚ)] ≠ []) ∧
    (∀ lv ∈ fitOuts ctxC [[0], [0]] (normalize [1, 1]) [] [1] 0,
      distinctCount lv.labels ≠ ctxC.n_clusters) ∧
    fit ctxC (some [1]) 0 [[0], [0]] none [] = .ok
      ⟨((fitOuts ctxC [[0], [0]] (normalize [1, 1]) [] [1] 0).getD
          (argminList ((fitOuts ctxC [[0], [0]] (normalize [1, 1]) [] [1]
            0).map (fun lv => levelDev ctxC lv))) dummyLv).centers,
       ((fitOuts ctxC [[0], [0]] (normalize [1, 1]) [] [1] 0).getD
          (argminList ((fitOuts ctxC [[0], [0]] (normalize [1, 1]) [] [1]
            0).map (fun lv => levelDev ctxC lv))) dummyLv).labels,
       ((fitOuts ctxC [[0], [0]] (normalize [1, 1]) [] [1] 0).map
          LevelOut.eta).getLastD ctxC.lamb,
       normalize [1, 1]⟩ :=
  ⟨rfl, by decide, by with_unfolding_all decide,
    c2_fallback_persisted ctxC [[0], [0]] none [] [1] 0 [1, 1] rfl
      (by decide) (by with_unfolding_all decide)⟩

/-- C4 witness: two well-separated points, one temperature level realizing
both clusters, so the scheduler terminates early at level 0. -/
theorem c4_witness :
    rawDemands 2 (none : Option (List ℚ)) = some [1, 1] ∧
    ([(1 : ℚ)] ≠ []) ∧
    (∃ res : Fitted, fit ctxE (some [1]) 0 [[0], [3]] none [] = .ok res ∧
      ((∃ j, j < (fitOuts ctxE [[0], [3]] (normalize [1, 1]) [] [1]
            0).length
          ∧ distinctCount ((fitOuts ctxE [[0], [3]] (normalize [1, 1]) []
              [1] 0).getD j dummyLv).labels = ctxE.n_clusters
          ∧ (∀ i, i < j → distinctCount ((fitOuts ctxE [[0], [3]]
              (normalize [1, 1]) [] [1] 0).getD i dummyLv).labels
              ≠ ctxE.n_clusters)
          ∧ res.labels_ = ((fitOuts ctxE [[0], [3]] (normalize [1, 1]) []
              [1] 0).getD j dummyLv).labels
          ∧ res.cluster_centers_ = ((fitOuts ctxE [[0], [3]]
              (normalize [1, 1]) [] [1] 0).getD j dummyLv).centers
          ∧ (runSchedule ctxE [[0], [3]] (normalize [1, 1]) []
              (ctxE.lamb.map fun l =>
                ((([[0], [3]] : Mat).length : ℕ) : ℚ) * l) [1] 0
              ⟨[], [], ctxE.lamb, false, [], []⟩).solutions.length = j + 1)
        ∨
        ((∀ i, i < (fitOuts ctxE [[0], [3]] (normalize [1, 1]) [] [1]
            0).length → distinctCount ((fitOuts ctxE [[0], [3]]
              (normalize [1, 1]) [] [1] 0).getD i dummyLv).labels
              ≠ ctxE.n_clusters)
          ∧ ∃ b, b < (fitOuts ctxE [[0], [3]] (normalize [1, 1]) [] [1]
              0).length
            ∧ (∀ i, i < (fitOuts ctxE [[0], [3]] (normalize [1, 1]) [] [1]
                0).length →
                levelDev ctxE ((fitOuts ctxE [[0], [3]] (normalize [1, 1])
                  [] [1] 0).getD b dummyLv) ≤ levelDev ctxE ((fitOuts ctxE
                  [[0], [3]] (normalize [1, 1]) [] [1] 0).getD i dummyLv))
            ∧ (∀ i, i < b →
                levelDev ctxE ((fitOuts ctxE [[0], [3]] (normalize [1, 1])
                  [] [1] 0).getD b dummyLv) < levelDev ctxE ((fitOuts ctxE
                  [[0], [3]] (normalize [1, 1]) [] [1] 0).getD i dummyLv))
            ∧ res.labels_ = ((fitOuts ctxE [[0], [3]] (normalize [1, 1]) []
                [1] 0).getD b dummyLv).labels
            ∧ res.cluster_centers_ = ((fitOuts ctxE [[0], [3]]
                (normalize [1, 1]) [] [1] 0).getD b dummyLv).centers))) :=
  ⟨rfl, by decide,
    c4_schedule_selection ctxE [[0], [3]] none [] [1] 0 [1, 1] rfl
      (by decide)⟩

/-- C5 witness: point 1 anchored to cluster 0 although it coincides with
the far group; its label is 0 in every iteration and in the persisted
labels. -/
theorem c5_witness :
    (∀ A B : Mat, (ctxE.dist A B).length = A.length ∧
      ∀ r ∈ ctxE.dist A B, r.length = B.length) ∧
    (∀ rng n k : ℕ, ((ctxE.sampler rng n k).1).length = k) ∧
    ctxE.lamb.length = ctxE.n_clusters ∧
    1 ≤ ctxE.max_iters ∧
    rawDemands 2 (none : Option (List ℚ)) = some [1, 1] ∧
    ([(1 : ℚ)] ≠ []) ∧
    ((0, [1]) ∈ ([(0, [1])] : List (ℕ × List ℕ))) ∧
    ((1 : ℕ) ∈ [1]) ∧
    (∀ p ∈ ([(0, [1])] : List (ℕ × List ℕ)), 1 ∈ p.2 → p.1 = 0) ∧
    0 < ctxE.n_clusters ∧ 1 < ([[0], [3]] : Mat).length ∧
    ((∀ g : Mat, 1 < g.length →
        (set_gibbs_fixed_points g [(0, [1])]).getD 1 [] =
          ((g.getD 1 []).map fun _ => (0 : ℚ)).set 0 1)
      ∧ (∀ lv ∈ fitOuts ctxE [[0], [3]] (normalize [1, 1]) [(0, [1])] [1] 0,
          ∀ labs ∈ lv.trace, labs.getD 1 0 = 0)
      ∧ ∃ res : Fitted,
          fit ctxE (some [1]) 0 [[0], [3]] none [(0, [1])] = .ok res
          ∧ res.labels_.getD 1 0 = 0) :=
  ⟨sqcdist_shape, samplerR_len, rfl, by decide, rfl, by decide, by decide,
    by decide, by decide, by decide, by decide,
    c5_anchored_labels ctxE [[0], [3]] none [(0, [1])] [1] 0 [1, 1] 0 1 [1]
      sqcdist_shape samplerR_len rfl (by decide) rfl (by decide) (by decide)
      (by decide) (by decide) (by decide) (by decide)⟩

end SCC
